import Mathlib

/-!
Verification of the string-processing and storage utilities of the
excel-assistant repository.  JavaScript strings are modelled as `List Char`,
`localStorage` is modelled as explicit state records threaded through the
operations, and fallible operations return `Except`.  The definitions are
translated from the TypeScript source files (`openaiService`,
`sqlValidator`, `exportManager`, `schemaManager`, `queryHistory`,
`mockDataGenerator`).
-/

set_option maxRecDepth 4000

namespace ExcelAssistant

/-- Whitespace test modelling the ASCII fragment of JavaScript `\s`
(and of `String.prototype.trim`). -/
def isWs (c : Char) : Bool :=
  c = ' ' || c = '\t' || c = '\n' || c = '\r' || c = '\x0b' || c = '\x0c'

/-- JavaScript `toLowerCase`, modelled on ASCII via `Char.toLower`. -/
def lowerL (s : List Char) : List Char := s.map Char.toLower

/-- JavaScript `toUpperCase`, modelled on ASCII via `Char.toUpper`. -/
def upperL (s : List Char) : List Char := s.map Char.toUpper

/-- JavaScript `String.prototype.includes`: substring occurrence test. -/
def containsSub (pat : List Char) : List Char → Bool
  | [] => pat.isEmpty
  | c :: rest => pat.isPrefixOf (c :: rest) || containsSub pat rest

/-- JavaScript `String.prototype.trim` (ASCII whitespace). -/
def trimL (s : List Char) : List Char :=
  (s.dropWhile isWs).rdropWhile isWs

/-! ## OpenAIService.enforceRateLimit (claim C6)

`enforceRateLimit` reads `Date.now()`, compares it with the recorded
completion time of the previous successful request (`lastRequestTime`) and
sleeps for the missing part of `RATE_LIMIT_DELAY`.  Times are integers in
milliseconds; `setTimeout` is modelled as waiting exactly the computed
delay. -/

def RATE_LIMIT_DELAY : Int := 1000

/-- Delay computed by `OpenAIService.enforceRateLimit` from the current
time and the recorded time of the last request. -/
def enforceRateLimitDelay (now lastRequestTime : Int) : Int :=
  let timeSinceLastRequest := now - lastRequestTime
  if timeSinceLastRequest < RATE_LIMIT_DELAY then
    RATE_LIMIT_DELAY - timeSinceLastRequest
  else 0

/-- Moment at which the next chat-completion request is issued once
`enforceRateLimit` has finished. -/
def requestStartTime (now lastRequestTime : Int) : Int :=
  now + enforceRateLimitDelay now lastRequestTime

/-! ## ExportManager.escapeCSV (claim C4) -/

/-- Cell values passed to `ExportManager.escapeCSV`: `null` and `undefined`
are kept apart (the source tests them explicitly); every other JavaScript
value is represented by its `String(value)` rendering. -/
inductive CellValue where
  | nullv
  | undef
  | val (stringForm : List Char)

/-- JavaScript `stringValue.replace(/"/g, '""')` from `escapeCSV`. -/
def doubleQuotes : List Char → List Char
  | [] => []
  | c :: rest => if c = '"' then '"' :: '"' :: doubleQuotes rest else c :: doubleQuotes rest

/-- `ExportManager.escapeCSV`. -/
def escapeCSV : CellValue → List Char
  | .nullv => []
  | .undef => []
  | .val s =>
    if containsSub [','] s || containsSub ['"'] s || containsSub ['\n'] s then
      '"' :: (doubleQuotes s ++ ['"'])
    else s

/-- Modelled from the spec: standard CSV unescaping of doubled interior
quotes, the specification side of the round-trip claim. -/
def unescapeQuotes : List Char → List Char
  | [] => []
  | [c] => [c]
  | c :: d :: rest =>
    if c = '"' ∧ d = '"' then '"' :: unescapeQuotes rest
    else c :: unescapeQuotes (d :: rest)

/-- Modelled from the spec: standard CSV unescaping of a whole field.  A
field enclosed in double quotes is stripped of the enclosing quotes and
every doubled interior quote collapses to one; any other field denotes
itself. -/
def csvUnescape (field : List Char) : List Char :=
  match field with
  | [] => []
  | c :: rest =>
    if c = '"' ∧ rest.getLast? = some '"' then unescapeQuotes rest.dropLast
    else field

theorem doubleQuotes_ne_nil (s : List Char) (h : s ≠ []) : doubleQuotes s ≠ [] := by
  cases s with
  | nil => exact absurd rfl h
  | cons c rest =>
    unfold doubleQuotes
    split <;> simp

theorem unescapeQuotes_doubleQuotes (s : List Char) :
    unescapeQuotes (doubleQuotes s) = s := by
  induction s with
  | nil => rfl
  | cons c rest ih =>
    by_cases hc : c = '"'
    · subst hc
      have h1 : doubleQuotes ('"' :: rest) = '"' :: '"' :: doubleQuotes rest := by
        simp [doubleQuotes]
      have h2 : unescapeQuotes ('"' :: '"' :: doubleQuotes rest) =
          '"' :: unescapeQuotes (doubleQuotes rest) := by
        simp [unescapeQuotes]
      rw [h1, h2, ih]
    · simp only [doubleQuotes, if_neg hc]
      cases h : doubleQuotes rest with
      | nil =>
        have : rest = [] := by
          by_contra hne
          exact doubleQuotes_ne_nil rest hne h
        subst this
        rfl
      | cons d tail =>
        rw [show unescapeQuotes (c :: d :: tail) = c :: unescapeQuotes (d :: tail) by
          simp [unescapeQuotes, hc]]
        rw [← h, ih]

theorem containsSub_single_iff (c : Char) (s : List Char) :
    containsSub [c] s = true ↔ c ∈ s := by
  induction s with
  | nil => simp [containsSub]
  | cons d rest ih =>
    simp [containsSub, List.isPrefixOf, ih]

/-- C6: `enforceRateLimit` never lets the next request start earlier than
`lastRequestTime + RATE_LIMIT_DELAY` (1000 ms): in the delayed branch the
start time is exactly `lastRequestTime + 1000`, otherwise at least 1000 ms
have already passed since `lastRequestTime`. -/
theorem rateLimit_start_ge (now lastRequestTime : Int) :
    lastRequestTime + RATE_LIMIT_DELAY ≤ requestStartTime now lastRequestTime := by
  unfold requestStartTime enforceRateLimitDelay RATE_LIMIT_DELAY
  dsimp only
  split <;> omega

/-- C4: `escapeCSV` maps `null` and `undefined` to the empty field, wraps a
string form containing a comma, double quote or newline in double quotes
with interior quotes doubled, passes every other value through unchanged,
and standard CSV unescaping recovers the original string form. -/
theorem escapeCSV_spec :
    escapeCSV .nullv = [] ∧ escapeCSV .undef = [] ∧
    (∀ s : List Char,
       (containsSub [','] s || containsSub ['"'] s || containsSub ['\n'] s) = true →
       escapeCSV (.val s) = '"' :: (doubleQuotes s ++ ['"'])) ∧
    (∀ s : List Char,
       (containsSub [','] s || containsSub ['"'] s || containsSub ['\n'] s) = false →
       escapeCSV (.val s) = s) ∧
    (∀ s : List Char, csvUnescape (escapeCSV (.val s)) = s) := by
  refine ⟨rfl, rfl, ?_, ?_, ?_⟩
  · intro s h
    simp [escapeCSV, h]
  · intro s h
    simp [escapeCSV, h]
  · intro s
    by_cases h : (containsSub [','] s || containsSub ['"'] s || containsSub ['\n'] s) = true
    · simp only [escapeCSV, if_pos h]
      rw [show csvUnescape ('"' :: (doubleQuotes s ++ ['"'])) =
          unescapeQuotes (doubleQuotes s ++ ['"']).dropLast from by
        simp [csvUnescape, List.getLast?_concat]]
      rw [List.dropLast_concat, unescapeQuotes_doubleQuotes]
    · have hq : '"' ∉ s := fun hmem =>
        h (by simp [(containsSub_single_iff '"' s).mpr hmem])
      simp only [escapeCSV, if_neg h]
      cases s with
      | nil => rfl
      | cons c rest =>
        have hc : ¬(c = '"' ∧ rest.getLast? = some '"') := by
          rintro ⟨rfl, -⟩
          exact hq (List.mem_cons_self _ _)
        simp [csvUnescape, hc]

/-- Witness for C4 at concrete inputs: a value containing a comma and a
quote hits the quoting branch and round-trips, a plain value passes through. -/
theorem escapeCSV_spec_witness :
    escapeCSV (.val "a,\"b".data) = '"' :: (doubleQuotes "a,\"b".data ++ ['"']) ∧
    escapeCSV (.val "plain".data) = "plain".data ∧
    csvUnescape (escapeCSV (.val "a,\"b".data)) = "a,\"b".data := by
  refine ⟨escapeCSV_spec.2.2.1 _ (by decide), escapeCSV_spec.2.2.2.1 _ (by decide),
    escapeCSV_spec.2.2.2.2 _⟩

/-! ## SchemaManager (claims C5 and C10)

`localStorage` is modelled by two cells: the schema list under
`STORAGE_KEY` (absent, parseable, or unparseable JSON) and the default
schema id under `DEFAULT_SCHEMA_KEY`.  Schemas are modelled by their `id`
and `name`; timestamps and table contents play no role in the claims and
are omitted.  `saveSchemas` only logs on failure, so saving is modelled as
always succeeding. -/

structure SchemaLite where
  id : List Char
  name : List Char
deriving DecidableEq, Repr

inductive SchemaStore where
  | ok (schemas : List SchemaLite)
  | bad
deriving DecidableEq, Repr

structure SMState where
  store : Option SchemaStore
  defaultId : Option (List Char)
deriving DecidableEq, Repr

/-- `SchemaManager.createDefaultSchema`. -/
def createDefaultSchema : SchemaLite :=
  ⟨"default-freight-schema".data, "Freight Analytics".data⟩

/-- `SchemaManager.getSchemas`: reads the stored list; when the store is
missing or holds an empty list the default schema is created and saved;
when the stored JSON cannot be parsed the exception is caught and the
default schema is returned without saving. -/
def getSchemas (st : SMState) : List SchemaLite × SMState :=
  match st.store with
  | none => ([createDefaultSchema], { st with store := some (.ok [createDefaultSchema]) })
  | some (.ok []) => ([createDefaultSchema], { st with store := some (.ok [createDefaultSchema]) })
  | some (.ok (s :: rest)) => (s :: rest, st)
  | some .bad => ([createDefaultSchema], st)

/-- `SchemaManager.setDefaultSchema`. -/
def setDefaultSchema (id : List Char) (st : SMState) : SMState :=
  { st with defaultId := some id }

/-- `SchemaManager.deleteSchema`: filters out the schema with the given id,
throws when nothing would remain, otherwise saves the filtered list and
reassigns the default id when the deleted schema was the default. -/
def deleteSchema (id : List Char) (st : SMState) :
    Except (List Char) Unit × SMState :=
  let res := getSchemas st
  let st1 := res.2
  let filtered := res.1.filter (fun s => s.id != id)
  match filtered with
  | [] => (.error "Cannot delete the last schema".data, st1)
  | f :: rest =>
    let st2 := { st1 with store := some (.ok (f :: rest)) }
    match st2.defaultId with
    | some d => if d = id then (.ok (), setDefaultSchema f.id st2) else (.ok (), st2)
    | none => (.ok (), st2)

/-- C10: `getSchemas` never returns an empty list; with no stored schemas
it returns and persists the built-in default 'Freight Analytics' schema,
and with unparseable storage it returns the default without persisting. -/
theorem getSchemas_never_empty (st : SMState) :
    (getSchemas st).1 ≠ [] ∧
    createDefaultSchema.name = "Freight Analytics".data ∧
    (st.store = none ∨ st.store = some (.ok []) →
      (getSchemas st).1 = [createDefaultSchema] ∧
      (getSchemas st).2.store = some (.ok [createDefaultSchema])) ∧
    (st.store = some .bad →
      (getSchemas st).1 = [createDefaultSchema] ∧ (getSchemas st).2 = st) := by
  obtain ⟨store, defaultId⟩ := st
  cases store with
  | none => exact ⟨by simp [getSchemas], rfl, fun _ => ⟨rfl, rfl⟩, by simp⟩
  | some v =>
    cases v with
    | bad =>
      exact ⟨by simp [getSchemas], rfl, by simp, fun _ => ⟨rfl, rfl⟩⟩
    | ok l =>
      cases l with
      | nil => exact ⟨by simp [getSchemas], rfl, fun _ => ⟨rfl, rfl⟩, by simp⟩
      | cons s rest => exact ⟨by simp [getSchemas], rfl, by simp, by simp⟩

/-- Witness for C10: the three storage shapes at concrete states. -/
theorem getSchemas_never_empty_witness :
    (getSchemas ⟨none, none⟩).1 = [createDefaultSchema] ∧
    (getSchemas ⟨some (.ok []), none⟩).2.store = some (.ok [createDefaultSchema]) ∧
    (getSchemas ⟨some .bad, none⟩).2 = (⟨some .bad, none⟩ : SMState) := by
  refine ⟨((getSchemas_never_empty ⟨none, none⟩).2.2.1 (Or.inl rfl)).1,
    ((getSchemas_never_empty ⟨some (.ok []), none⟩).2.2.1 (Or.inr rfl)).2,
    ((getSchemas_never_empty ⟨some .bad, none⟩).2.2.2 rfl).2⟩

/-- C5 counterexample: with an empty persisted schema list, deleting the
default schema's id throws 'Cannot delete the last schema', yet the
persisted list changes from `[]` to the materialised default schema, so the
error case is not atomic with respect to the store. -/
theorem deleteSchema_not_atomic :
    (deleteSchema "default-freight-schema".data ⟨some (.ok []), none⟩).1 =
      .error "Cannot delete the last schema".data ∧
    (deleteSchema "default-freight-schema".data ⟨some (.ok []), none⟩).2.store =
      some (.ok [createDefaultSchema]) ∧
    some (SchemaStore.ok [createDefaultSchema]) ≠
      (⟨some (.ok []), none⟩ : SMState).store := by
  refine ⟨rfl, rfl, by decide⟩

/-- C5 (amended): `deleteSchema` throws 'Cannot delete the last schema'
exactly when filtering out the given id leaves nothing; in that case the
state equals the state after the initial `getSchemas` read (so the deletion
itself persists nothing, though `getSchemas` may first materialise the
default schema), and in particular the store is untouched whenever it
already held a non-empty list; otherwise exactly the schemas with that id
are removed and, when the deleted id was the default, the first remaining
schema becomes the default. -/
theorem deleteSchema_spec (id : List Char) (st : SMState) :
    ((deleteSchema id st).1 = .error "Cannot delete the last schema".data ↔
      (getSchemas st).1.filter (fun s => s.id != id) = []) ∧
    ((getSchemas st).1.filter (fun s => s.id != id) = [] →
      (deleteSchema id st).2 = (getSchemas st).2) ∧
    (∀ l, st.store = some (.ok l) → l ≠ [] →
      (getSchemas st).1.filter (fun s => s.id != id) = [] →
      (deleteSchema id st).2 = st) ∧
    (∀ f rest, (getSchemas st).1.filter (fun s => s.id != id) = f :: rest →
      (deleteSchema id st).1 = .ok () ∧
      (deleteSchema id st).2.store = some (.ok (f :: rest)) ∧
      (deleteSchema id st).2.defaultId =
        (if st.defaultId = some id then some f.id else st.defaultId)) := by
  have hdef : (getSchemas st).2.defaultId = st.defaultId := by
    obtain ⟨store, d⟩ := st
    cases store with
    | none => rfl
    | some v =>
      cases v with
      | bad => rfl
      | ok l => cases l <;> rfl
  cases hf : (getSchemas st).1.filter (fun s => s.id != id) with
  | nil =>
    refine ⟨⟨fun _ => rfl, fun _ => ?_⟩, fun _ => ?_, fun l hl hne _ => ?_, ?_⟩
    · simp [deleteSchema, hf]
    · simp [deleteSchema, hf]
    · have : (getSchemas st).2 = st := by
        obtain ⟨store, d⟩ := st
        cases store with
        | none => simp at hl
        | some v =>
          cases v with
          | bad => rfl
          | ok l' =>
            cases l' with
            | nil =>
              exfalso
              apply hne
              injection hl with h1
              injection h1 with h2
              exact h2.symm
            | cons a b => rfl
      simp [deleteSchema, hf, this]
    · intro f rest h
      exact absurd h (by simp)
  | cons f rest =>
    have herr : (deleteSchema id st).1 = .ok () := by
      simp only [deleteSchema, hf]
      cases hd : (getSchemas st).2.defaultId with
      | none => rfl
      | some d =>
        dsimp only
        split <;> rfl
    refine ⟨⟨fun h => ?_, fun h => ?_⟩, fun h => ?_, fun l hl hne h => ?_, ?_⟩
    · rw [herr] at h
      exact absurd h (by simp)
    · exact absurd h (by simp)
    · exact absurd h (by simp)
    · exact absurd h (by simp)
    · intro f' rest' h
      injection h with h1 h2
      subst h1
      subst h2
      refine ⟨herr, ?_, ?_⟩
      · simp only [deleteSchema, hf]
        cases hd : (getSchemas st).2.defaultId with
        | none => rfl
        | some d =>
          dsimp only
          split <;> rfl
      · simp only [deleteSchema, hf]
        rw [← hdef]
        cases hd : (getSchemas st).2.defaultId with
        | none => simp
        | some d =>
          dsimp only
          by_cases hdi : d = id
          · subst hdi
            simp [setDefaultSchema]
          · simp [hdi]

/-- Witness for C5 (amended) at concrete states: a two-schema store where
deleting the default id succeeds and reassigns the default, and a
non-empty store where deleting the only id fails and leaves the state
untouched. -/
theorem deleteSchema_spec_witness :
    (deleteSchema "a".data ⟨some (.ok [⟨"a".data, "A".data⟩, ⟨"b".data, "B".data⟩]),
        some "a".data⟩).1 = .ok () ∧
    (deleteSchema "a".data ⟨some (.ok [⟨"a".data, "A".data⟩, ⟨"b".data, "B".data⟩]),
        some "a".data⟩).2.store = some (.ok [⟨"b".data, "B".data⟩]) ∧
    (deleteSchema "a".data ⟨some (.ok [⟨"a".data, "A".data⟩, ⟨"b".data, "B".data⟩]),
        some "a".data⟩).2.defaultId = some "b".data ∧
    (deleteSchema "a".data ⟨some (.ok [⟨"a".data, "A".data⟩]), none⟩).2 =
      (⟨some (.ok [⟨"a".data, "A".data⟩]), none⟩ : SMState) := by
  have h1 := (deleteSchema_spec "a".data
    ⟨some (.ok [⟨"a".data, "A".data⟩, ⟨"b".data, "B".data⟩]), some "a".data⟩).2.2.2
    ⟨"b".data, "B".data⟩ [] (by decide)
  have h2 := (deleteSchema_spec "a".data
    ⟨some (.ok [⟨"a".data, "A".data⟩]), none⟩).2.2.1
    [⟨"a".data, "A".data⟩] rfl (by decide) (by decide)
  refine ⟨h1.1, h1.2.1, ?_, h2⟩
  rw [h1.2.2]
  decide

/-! ## QueryHistoryManager (claims C8 and C9)

The history store under `STORAGE_KEY` is absent, parseable, or unparseable;
`getHistory` catches parse failures and returns `[]`.  The generated item
id and the `Date.now()` timestamp are passed to `addQuery` as parameters.
`saveHistory` only logs on failure, so saving is modelled as always
succeeding. -/

structure QueryHistoryItem where
  id : List Char
  question : List Char
  sql : List Char
  timestamp : Nat
  isFavorite : Bool
  success : Bool
  executionTime : Option Nat
  errorMessage : Option (List Char)
  tags : List (List Char)
deriving DecidableEq, Repr

inductive HistoryStore where
  | ok (items : List QueryHistoryItem)
  | bad
deriving DecidableEq, Repr

structure QHState where
  store : Option HistoryStore
deriving DecidableEq, Repr

/-- `QueryHistoryManager.getHistory`. -/
def getHistory (st : QHState) : List QueryHistoryItem :=
  match st.store with
  | some (.ok items) => items
  | some .bad => []
  | none => []

/-- SQL keywords scanned by `extractTags`. -/
def tagSqlKeywords : List (List Char) :=
  ["select".data, "from".data, "where".data, "group by".data, "order by".data,
   "join".data, "union".data, "cte".data, "window".data]

/-- Domain terms scanned by `extractTags`. -/
def tagDomainTerms : List (List Char) :=
  ["carrier".data, "cost".data, "freight".data, "delivery".data, "quarter".data,
   "performance".data, "route".data]

/-- `QueryHistoryManager.extractTags`: keywords and domain terms occurring
in the lowercased `question + " " + sql` text, in scan order (the `Set`
preserves insertion order and the two lists are disjoint). -/
def extractTags (question sql : List Char) : List (List Char) :=
  let text := lowerL (question ++ ' ' :: sql)
  tagSqlKeywords.filter (fun k => containsSub k text) ++
    tagDomainTerms.filter (fun k => containsSub k text)

/-- The history item built by `QueryHistoryManager.addQuery`. -/
def mkQueryItem (newId : List Char) (now : Nat) (question sql : List Char)
    (success : Bool) (executionTime : Option Nat)
    (errorMessage : Option (List Char)) : QueryHistoryItem :=
  { id := newId, question := question, sql := sql, timestamp := now,
    isFavorite := false, success := success, executionTime := executionTime,
    errorMessage := errorMessage, tags := extractTags question sql }

/-- `QueryHistoryManager.addQuery`: unshifts the new item, truncates to the
last 100 queries (`history.splice(100)`) and saves. -/
def addQuery (newId : List Char) (now : Nat) (question sql : List Char)
    (success : Bool) (executionTime : Option Nat)
    (errorMessage : Option (List Char)) (st : QHState) : List Char × QHState :=
  let history := getHistory st
  let unshifted := mkQueryItem newId now question sql success executionTime
    errorMessage :: history
  let capped := if unshifted.length > 100 then unshifted.take 100 else unshifted
  (newId, ⟨some (.ok capped)⟩)

theorem addQuery_getHistory (newId : List Char) (now : Nat)
    (question sql : List Char) (success : Bool) (et : Option Nat)
    (em : Option (List Char)) (st : QHState) :
    getHistory (addQuery newId now question sql success et em st).2 =
      mkQueryItem newId now question sql success et em ::
        (getHistory st).take 99 := by
  have hres : getHistory (addQuery newId now question sql success et em st).2 =
      (if (mkQueryItem newId now question sql success et em ::
            getHistory st).length > 100
       then (mkQueryItem newId now question sql success et em ::
            getHistory st).take 100
       else mkQueryItem newId now question sql success et em ::
            getHistory st) := rfl
  rw [hres]
  split
  · rw [List.take_succ_cons]
  · rename_i h
    have hlen : (getHistory st).length ≤ 99 := by
      simp only [List.length_cons] at h
      omega
    rw [List.take_of_length_le hlen]

/-- C8 counterexample: with 100 stored items, `addQuery` drops the oldest
stored item, so not all previously stored items survive. -/
def mkItem (i : Nat) : QueryHistoryItem :=
  { id := (Nat.repr i).data, question := (Nat.repr i).data, sql := [],
    timestamp := 0, isFavorite := false, success := true,
    executionTime := none, errorMessage := none, tags := [] }

/-- A state whose persisted history already holds 100 items. -/
def full100State : QHState := ⟨some (.ok ((List.range 100).map mkItem))⟩

theorem addQuery_drops_oldest :
    mkItem 99 ∈ getHistory full100State ∧
    mkItem 99 ∉ getHistory
      (addQuery "n".data 5 "q".data "s".data true none none full100State).2 := by
  decide

/-- C8 (amended): after `addQuery`, `getHistory` starts with the new item,
which records exactly the given question and sql with `isFavorite = false`,
followed by the previously stored items in order — all of them when at most
99 were stored, and only the first 99 otherwise. -/
theorem addQuery_spec (newId : List Char) (now : Nat) (question sql : List Char)
    (success : Bool) (et : Option Nat) (em : Option (List Char)) (st : QHState) :
    (mkQueryItem newId now question sql success et em).question = question ∧
    (mkQueryItem newId now question sql success et em).sql = sql ∧
    (mkQueryItem newId now question sql success et em).isFavorite = false ∧
    getHistory (addQuery newId now question sql success et em st).2 =
      mkQueryItem newId now question sql success et em ::
        (getHistory st).take 99 ∧
    ((getHistory st).length ≤ 99 →
      getHistory (addQuery newId now question sql success et em st).2 =
        mkQueryItem newId now question sql success et em :: getHistory st) := by
  refine ⟨rfl, rfl, rfl, addQuery_getHistory _ _ _ _ _ _ _ _, fun h => ?_⟩
  rw [addQuery_getHistory, List.take_of_length_le h]

/-- Witness for C8 (amended) at a concrete one-item state. -/
theorem addQuery_spec_witness :
    (getHistory (⟨some (.ok [mkItem 0])⟩ : QHState)).length ≤ 99 ∧
    getHistory (addQuery "n".data 5 "q".data "s".data true none none
        ⟨some (.ok [mkItem 0])⟩).2 =
      mkQueryItem "n".data 5 "q".data "s".data true none none ::
        getHistory (⟨some (.ok [mkItem 0])⟩ : QHState) := by
  exact ⟨by decide,
    (addQuery_spec "n".data 5 "q".data "s".data true none none
      ⟨some (.ok [mkItem 0])⟩).2.2.2.2 (by decide)⟩

/-- C9: the persisted history never exceeds 100 items after `addQuery`, and
when exactly 100 items are stored the oldest one is discarded while the 99
most recent survive ahead of the new item. -/
theorem addQuery_cap (newId : List Char) (now : Nat) (question sql : List Char)
    (success : Bool) (et : Option Nat) (em : Option (List Char)) (st : QHState) :
    (getHistory (addQuery newId now question sql success et em st).2).length ≤ 100 ∧
    ((getHistory st).length = 100 →
      getHistory (addQuery newId now question sql success et em st).2 =
        mkQueryItem newId now question sql success et em ::
          (getHistory st).take 99) := by
  refine ⟨?_, fun _ => addQuery_getHistory _ _ _ _ _ _ _ _⟩
  rw [addQuery_getHistory]
  simp only [List.length_cons, List.length_take]
  omega

/-- Witness for C9 at the concrete 100-item state: the result has exactly
100 items and consists of the new item followed by the 99 most recent. -/
theorem addQuery_cap_witness :
    (getHistory (addQuery "n".data 5 "q".data "s".data true none none
      full100State).2).length ≤ 100 ∧
    getHistory (addQuery "n".data 5 "q".data "s".data true none none
        full100State).2 =
      mkQueryItem "n".data 5 "q".data "s".data true none none ::
        (getHistory full100State).take 99 := by
  exact ⟨(addQuery_cap "n".data 5 "q".data "s".data true none none full100State).1,
    (addQuery_cap "n".data 5 "q".data "s".data true none none full100State).2
      (by decide)⟩

/-! ## SQLValidator (claim C3)

`tokenize` splits the SQL text into lines (`split('\n')`), trims each line,
turns a line starting with `--` into a single comment token and otherwise
splits the line on whitespace runs (`split(/\s+/)`), classifying each word.
Validation errors are modelled by their message strings; the `line`,
`column` and `suggestion` fields and the warning/suggestion/hint lists are
not referenced by any claim and are omitted.  The optional schema argument
of `validateSQL` only ever adds warnings, never errors. -/

/-- JavaScript `String.prototype.split('\n')`: keeps empty segments. -/
def splitLines : List Char → List (List Char)
  | [] => [[]]
  | c :: rest =>
    if c = '\n' then [] :: splitLines rest
    else
      match splitLines rest with
      | l :: ls => (c :: l) :: ls
      | [] => [[c]]

/-- JavaScript `split(/\s+/)` on a trimmed string (with empty words
skipped, as the `if (!word) continue` in the source does): the maximal
whitespace-free runs. -/
def splitWs : List Char → List (List Char)
  | [] => []
  | c :: x =>
    if isWs c then splitWs x
    else
      match x with
      | [] => [[c]]
      | d :: _ =>
        if isWs d then [c] :: splitWs x
        else
          match splitWs x with
          | w :: rest => (c :: w) :: rest
          | [] => [[c]]

inductive TokenType where
  | keyword
  | identifier
  | strlit
  | number
  | operator
  | punctuation
  | comment
deriving DecidableEq, Repr

structure SQLToken where
  ttype : TokenType
  value : List Char
deriving DecidableEq, Repr

/-- `SQLValidator.SQL_KEYWORDS`. -/
def SQL_KEYWORDS : List (List Char) :=
  ["SELECT".data, "FROM".data, "WHERE".data, "GROUP BY".data, "ORDER BY".data,
   "HAVING".data, "JOIN".data, "LEFT JOIN".data, "RIGHT JOIN".data,
   "INNER JOIN".data, "OUTER JOIN".data, "UNION".data, "UNION ALL".data,
   "WITH".data, "AS".data, "ON".data, "AND".data, "OR".data, "IN".data,
   "BETWEEN".data, "LIKE".data, "IS NULL".data, "IS NOT NULL".data,
   "LIMIT".data, "OFFSET".data, "DISTINCT".data, "COUNT".data, "SUM".data,
   "AVG".data, "MAX".data, "MIN".data, "CASE".data, "WHEN".data, "THEN".data,
   "ELSE".data, "END".data, "OVER".data, "PARTITION BY".data,
   "ROW_NUMBER".data, "RANK".data, "DENSE_RANK".data, "LAG".data,
   "LEAD".data, "FIRST_VALUE".data, "LAST_VALUE".data]

/-- The word matches `/^[0-9]+(\.[0-9]+)?$/`. -/
def isNumberTok (w : List Char) : Bool :=
  let ip := w.takeWhile Char.isDigit
  let rest := w.dropWhile Char.isDigit
  !ip.isEmpty &&
    (rest.isEmpty ||
      match rest with
      | '.' :: frac => !frac.isEmpty && frac.all Char.isDigit
      | _ => false)

/-- The word starts and ends with a single quote. -/
def isStringTok (w : List Char) : Bool :=
  w.head? = some '\x27' && w.getLast? = some '\x27'

/-- The word matches `/^[+\-*/=<>!]+$/`. -/
def isOperatorTok (w : List Char) : Bool :=
  !w.isEmpty && w.all (fun c => c ∈ ['+', '-', '*', '/', '=', '<', '>', '!'])

/-- The word matches `/^[(),;.]+$/`. -/
def isPunctTok (w : List Char) : Bool :=
  !w.isEmpty && w.all (fun c => c ∈ ['(', ')', ',', ';', '.'])

/-- Token classification from `SQLValidator.tokenize`. -/
def classifyWord (w : List Char) : TokenType :=
  if SQL_KEYWORDS.contains (upperL w) then .keyword
  else if isNumberTok w then .number
  else if isStringTok w then .strlit
  else if isOperatorTok w then .operator
  else if isPunctTok w then .punctuation
  else .identifier

/-- Per-line part of `SQLValidator.tokenize`. -/
def tokenizeLine (line : List Char) : List SQLToken :=
  let trimmed := trimL line
  if trimmed.isEmpty then []
  else if "--".data.isPrefixOf trimmed then [⟨.comment, trimmed⟩]
  else (splitWs trimmed).map (fun w => ⟨classifyWord w, w⟩)

/-- `SQLValidator.tokenize`. -/
def tokenize (sql : List Char) : List SQLToken :=
  ((splitLines sql).map tokenizeLine).flatten

def MISSING_SELECT : List Char := "Missing SELECT clause".data

def MISSING_FROM : List Char := "Missing FROM clause".data

def UNMATCHED_CLOSE : List Char := "Unmatched closing parenthesis".data

def UNMATCHED_OPEN : List Char := "Unmatched opening parenthesis".data

/-- The paren-counting loop of `validateBasicSyntax`: errors pushed at each
unmatched closing parenthesis, together with the final count. -/
def parenScan (count : Int) : List SQLToken → List (List Char) × Int
  | [] => ([], count)
  | t :: rest =>
    if t.ttype = .punctuation ∧ t.value = ['('] then parenScan (count + 1) rest
    else if t.ttype = .punctuation ∧ t.value = [')'] then
      if count - 1 < 0 then
        let r := parenScan (count - 1) rest
        (UNMATCHED_CLOSE :: r.1, r.2)
      else parenScan (count - 1) rest
    else parenScan count rest

/-- The `hasSelect` / `hasFrom` test of `validateBasicSyntax`: some keyword
token whose uppercased value is the given word. -/
def hasKeywordUpper (tokens : List SQLToken) (kw : List Char) : Bool :=
  tokens.any (fun t => t.ttype == TokenType.keyword && upperL t.value == kw)

/-- Errors produced by `SQLValidator.validateBasicSyntax`, in push order. -/
def validateBasicSyntax (tokens : List SQLToken) : List (List Char) :=
  let ps := parenScan 0 tokens
  ps.1 ++
    (if hasKeywordUpper tokens "SELECT".data then [] else [MISSING_SELECT]) ++
    (if hasKeywordUpper tokens "FROM".data then [] else [MISSING_FROM]) ++
    (if ps.2 > 0 then [UNMATCHED_OPEN] else [])

/-- The `keywordSequence` of `validateSQLStructure`: uppercased keyword
token values joined by single spaces. -/
def keywordSequence (tokens : List SQLToken) : List Char :=
  List.intercalate [' ']
    ((tokens.filter (fun t => t.ttype == TokenType.keyword)).map
      (fun t => upperL t.value))

/-- Errors produced by `SQLValidator.validateSQLStructure`, in push order
(its `SELECT *` check only adds a warning). -/
def structureErrors (tokens : List SQLToken) : List (List Char) :=
  let ks := keywordSequence tokens
  (if containsSub "GROUP BY".data ks && !containsSub "SELECT".data ks then
    ["GROUP BY without SELECT".data] else []) ++
  (if containsSub "HAVING".data ks && !containsSub "GROUP BY".data ks then
    ["HAVING without GROUP BY".data] else []) ++
  (if containsSub "ORDER BY".data ks && !containsSub "SELECT".data ks then
    ["ORDER BY without SELECT".data] else [])

structure ValidationResultLite where
  isValid : Bool
  errors : List (List Char)
deriving DecidableEq, Repr

/-- `SQLValidator.validateSQL` restricted to the fields the claims
reference: `isValid` and the error list (`validatePerformance`,
`validateAgainstSchema` and `validateBestPractices` only fill the warning,
suggestion and hint lists). -/
def validateSQL (sql : List Char) : ValidationResultLite :=
  let tokens := tokenize sql
  let errors := validateBasicSyntax tokens ++ structureErrors tokens
  ⟨errors.isEmpty, errors⟩

theorem splitLines_ne_nil (s : List Char) : splitLines s ≠ [] := by
  cases s with
  | nil => simp [splitLines]
  | cons c rest =>
    unfold splitLines
    split
    · simp
    · split <;> simp

/-- Concatenation of line segments with newline separators, the inverse of
`splitLines`. -/
def joinNl : List (List Char) → List Char
  | [] => []
  | [l] => l
  | l :: ls => l ++ '\n' :: joinNl ls

theorem joinNl_splitLines (s : List Char) : joinNl (splitLines s) = s := by
  induction s with
  | nil => rfl
  | cons c rest ih =>
    by_cases hc : c = '\n'
    · subst hc
      rw [show splitLines ('\n' :: rest) = [] :: splitLines rest from by
        simp [splitLines]]
      cases h : splitLines rest with
      | nil => exact absurd h (splitLines_ne_nil rest)
      | cons l ls =>
        rw [h] at ih
        rw [show joinNl ([] :: l :: ls) = [] ++ '\n' :: joinNl (l :: ls) from rfl]
        simp [ih]
    · rw [show splitLines (c :: rest) =
          (match splitLines rest with
           | l :: ls => (c :: l) :: ls
           | [] => [[c]]) from by simp [splitLines, hc]]
      cases h : splitLines rest with
      | nil => exact absurd h (splitLines_ne_nil rest)
      | cons l ls =>
        rw [h] at ih
        cases ls with
        | nil =>
          rw [show joinNl [c :: l] = c :: l from rfl]
          rw [show joinNl [l] = l from rfl] at ih
          rw [ih]
        | cons l2 ls2 =>
          rw [show joinNl ((c :: l) :: l2 :: ls2) =
              (c :: l) ++ '\n' :: joinNl (l2 :: ls2) from rfl]
          rw [show joinNl (l :: l2 :: ls2) =
              l ++ '\n' :: joinNl (l2 :: ls2) from rfl] at ih
          rw [List.cons_append, ih]

/-- The list is empty or starts with a whitespace character. -/
def nilOrWsHead : List Char → Bool
  | [] => true
  | d :: _ => isWs d

theorem splitWs_cons_ne_nil (d : Char) (y : List Char) (h : isWs d = false) :
    splitWs (d :: y) ≠ [] := by
  cases y with
  | nil => simp [splitWs, h]
  | cons e y' =>
    by_cases he : isWs e = true
    · simp [splitWs, h, he]
    · have he' : isWs e = false := by simpa using he
      rw [show splitWs (d :: e :: y') =
          (match splitWs (e :: y') with
           | w :: rest => (d :: w) :: rest
           | [] => [[d]]) from by simp [splitWs, h, he']]
      split <;> simp

theorem splitWs_append (a b : List Char) (hb : nilOrWsHead b = true) :
    splitWs (a ++ b) = splitWs a ++ splitWs b := by
  induction a with
  | nil => simp [splitWs]
  | cons e a' ih =>
    by_cases he : isWs e = true
    · simpa [splitWs, he] using ih
    · have he' : isWs e = false := by simpa using he
      cases a' with
      | nil =>
        cases b with
        | nil => simp [splitWs, he']
        | cons d b' =>
          have hd : isWs d = true := by simpa [nilOrWsHead] using hb
          simp [splitWs, he', hd]
      | cons d a'' =>
        by_cases hd : isWs d = true
        · have h1 : splitWs (e :: (d :: a'') ++ b) = [e] :: splitWs ((d :: a'') ++ b) := by
            simp [splitWs, he', hd]
          have h2 : splitWs (e :: d :: a'') = [e] :: splitWs (d :: a'') := by
            simp [splitWs, he', hd]
          rw [List.cons_append] at h1 ⊢
          rw [h1, h2, ih, List.cons_append]
        · have hd' : isWs d = false := by simpa using hd
          have hne : splitWs (d :: a'') ≠ [] := splitWs_cons_ne_nil d a'' hd'
          cases hw : splitWs (d :: a'') with
          | nil => exact absurd hw hne
          | cons w r =>
            have ih' : splitWs ((d :: a'') ++ b) = w :: (r ++ splitWs b) := by
              rw [ih, hw, List.cons_append]
            have h1 : splitWs (e :: ((d :: a'') ++ b)) = (e :: w) :: (r ++ splitWs b) := by
              rw [show splitWs (e :: ((d :: a'') ++ b)) =
                  (match splitWs ((d :: a'') ++ b) with
                   | w' :: rest => (e :: w') :: rest
                   | [] => [[e]]) from by simp [splitWs, he', hd'], ih']
            have h2 : splitWs (e :: d :: a'') = (e :: w) :: r := by
              rw [show splitWs (e :: d :: a'') =
                  (match splitWs (d :: a'') with
                   | w' :: rest => (e :: w') :: rest
                   | [] => [[e]]) from by simp [splitWs, he', hd'], hw]
            rw [List.cons_append, h1, h2, List.cons_append]

theorem splitWs_eq_nil_of_all_ws (t : List Char) (h : ∀ c ∈ t, isWs c = true) :
    splitWs t = [] := by
  induction t with
  | nil => rfl
  | cons c rest ih =>
    have hc := h c (by simp)
    rw [show splitWs (c :: rest) = splitWs rest from by simp [splitWs, hc]]
    exact ih (fun d hd => h d (by simp [hd]))

theorem splitWs_joinNl (parts : List (List Char)) :
    splitWs (joinNl parts) = (parts.map splitWs).flatten := by
  induction parts with
  | nil => rfl
  | cons l ls ih =>
    cases ls with
    | nil => simp [joinNl]
    | cons l2 ls2 =>
      rw [show joinNl (l :: l2 :: ls2) = l ++ '\n' :: joinNl (l2 :: ls2) from rfl]
      rw [splitWs_append _ _ (by simp [nilOrWsHead, isWs])]
      rw [show splitWs ('\n' :: joinNl (l2 :: ls2)) = splitWs (joinNl (l2 :: ls2)) from by
        simp [splitWs, isWs]]
      rw [ih]
      simp

theorem splitWs_dropWhile_ws (l : List Char) :
    splitWs (l.dropWhile isWs) = splitWs l := by
  induction l with
  | nil => rfl
  | cons c rest ih =>
    by_cases hc : isWs c = true
    · rw [List.dropWhile_cons]
      simp only [hc, if_true]
      rw [ih, show splitWs (c :: rest) = splitWs rest from by simp [splitWs, hc]]
    · rw [List.dropWhile_cons]
      simp [hc]

theorem splitWs_rdropWhile_ws (u : List Char) :
    splitWs (u.rdropWhile isWs) = splitWs u := by
  have hsplit : u.rdropWhile isWs ++ u.rtakeWhile isWs = u := by
    rw [List.rdropWhile, List.rtakeWhile, ← List.reverse_append,
      List.takeWhile_append_dropWhile, List.reverse_reverse]
  conv_rhs => rw [← hsplit]
  cases ht : u.rtakeWhile isWs with
  | nil => simp
  | cons d t' =>
    have hall : ∀ c ∈ (d :: t' : List Char), isWs c = true := by
      intro c hc
      exact List.mem_rtakeWhile_imp (ht ▸ hc)
    rw [splitWs_append _ _ (by simp [nilOrWsHead, hall d (by simp)])]
    rw [splitWs_eq_nil_of_all_ws _ hall, List.append_nil]

theorem splitWs_trimL (l : List Char) : splitWs (trimL l) = splitWs l := by
  rw [trimL, splitWs_rdropWhile_ws, splitWs_dropWhile_ws]

theorem tokenize_value_mem (sql : List Char) (t : SQLToken)
    (ht : t ∈ tokenize sql) (hc : t.ttype ≠ .comment) :
    t.value ∈ splitWs sql := by
  simp only [tokenize, List.mem_flatten, List.mem_map] at ht
  obtain ⟨toks, ⟨line, hline, rfl⟩, htl⟩ := ht
  have hval : t.value ∈ splitWs line := by
    unfold tokenizeLine at htl
    by_cases h1 : (trimL line).isEmpty = true
    · simp [h1] at htl
    · simp only [h1] at htl
      rw [if_neg (by simp [h1])] at htl
      by_cases h2 : "--".data.isPrefixOf (trimL line) = true
      · rw [if_pos h2] at htl
        simp only [List.mem_singleton] at htl
        exact absurd (congrArg SQLToken.ttype htl) (by simpa using hc)
      · rw [if_neg h2] at htl
        simp only [List.mem_map] at htl
        obtain ⟨w, hw, rfl⟩ := htl
        rw [← splitWs_trimL]
        exact hw
  have hflat : splitWs sql = ((splitLines sql).map splitWs).flatten := by
    conv_lhs => rw [← joinNl_splitLines sql]
    exact splitWs_joinNl (splitLines sql)
  rw [hflat]
  simp only [List.mem_flatten, List.mem_map]
  exact ⟨splitWs line, ⟨line, hline, rfl⟩, hval⟩

/-- The claim's hypothesis: the whitespace-separated token stream of the
SQL string contains no standalone word equal (case-insensitively) to the
given keyword. -/
def noStandaloneWord (sql kw : List Char) : Prop :=
  ∀ w ∈ splitWs sql, upperL w ≠ kw

instance (sql kw : List Char) : Decidable (noStandaloneWord sql kw) := by
  unfold noStandaloneWord
  infer_instance

theorem hasKeywordUpper_eq_false (sql kw : List Char) (h : noStandaloneWord sql kw) :
    hasKeywordUpper (tokenize sql) kw = false := by
  rw [← Bool.not_eq_true, hasKeywordUpper, List.any_eq_true]
  rintro ⟨t, ht, hprop⟩
  simp only [Bool.and_eq_true, beq_iff_eq] at hprop
  obtain ⟨hty, hup⟩ := hprop
  have hmem : t.value ∈ splitWs sql :=
    tokenize_value_mem sql t ht (by rw [hty]; simp)
  exact h t.value hmem hup

/-- C3: `validateSQL` reports `isValid = true` exactly when its error list
is empty, and a SQL string without a standalone SELECT (resp. FROM) word in
its whitespace-separated token stream yields the 'Missing SELECT clause'
(resp. 'Missing FROM clause') error and `isValid = false`. -/
theorem validateSQL_spec (sql : List Char) :
    ((validateSQL sql).isValid = true ↔ (validateSQL sql).errors = []) ∧
    (noStandaloneWord sql "SELECT".data →
      MISSING_SELECT ∈ (validateSQL sql).errors ∧
      (validateSQL sql).isValid = false) ∧
    (noStandaloneWord sql "FROM".data →
      MISSING_FROM ∈ (validateSQL sql).errors ∧
      (validateSQL sql).isValid = false) := by
  have hiff : (validateSQL sql).isValid = true ↔ (validateSQL sql).errors = [] := by
    simp [validateSQL, List.isEmpty_iff]
  refine ⟨hiff, fun h => ?_, fun h => ?_⟩
  · have hk := hasKeywordUpper_eq_false sql "SELECT".data h
    have hmem : MISSING_SELECT ∈ (validateSQL sql).errors := by
      simp [validateSQL, validateBasicSyntax, hk]
    refine ⟨hmem, ?_⟩
    by_cases hv : (validateSQL sql).isValid = true
    · rw [hiff.mp hv] at hmem
      exact absurd hmem (by simp)
    · simpa using hv
  · have hk := hasKeywordUpper_eq_false sql "FROM".data h
    have hmem : MISSING_FROM ∈ (validateSQL sql).errors := by
      simp [validateSQL, validateBasicSyntax, hk]
    refine ⟨hmem, ?_⟩
    by_cases hv : (validateSQL sql).isValid = true
    · rw [hiff.mp hv] at hmem
      exact absurd hmem (by simp)
    · simpa using hv

/-- Witness for C3 at a concrete SQL string with neither SELECT nor FROM. -/
theorem validateSQL_spec_witness :
    MISSING_SELECT ∈ (validateSQL "UPDATE t SET x = 1".data).errors ∧
    MISSING_FROM ∈ (validateSQL "UPDATE t SET x = 1".data).errors ∧
    (validateSQL "UPDATE t SET x = 1".data).isValid = false := by
  have h1 := (validateSQL_spec "UPDATE t SET x = 1".data).2.1 (by decide)
  have h2 := (validateSQL_spec "UPDATE t SET x = 1".data).2.2 (by decide)
  exact ⟨h1.1, h2.1, h1.2⟩

/-! ## OpenAIService.postProcessSQL (claims C1 and C7)

`postProcessSQL` strips markdown code fences
(`.replace(/```sql\s*/gi, '').replace(/```\s*$/gi, '').trim()`), appends
`\nLIMIT n` when `limitResults` is truthy and the lowercased SQL does not
contain the substring "limit", and re-formats with `formatSQL`.  The
JavaScript regex replaces scan the original string left to right over
non-overlapping matches; they are modelled by skip machines that pass over
the matched characters of the original text. -/

def FENCE : List Char := ['\x60', '\x60', '\x60']

def FENCE_SQL : List Char := ['\x60', '\x60', '\x60', 's', 'q', 'l']

/-- Case-insensitive prefix test (the `i` regex flag). -/
def ciPrefix : List Char → List Char → Bool
  | [], _ => true
  | _ :: _, [] => false
  | p :: ps, c :: cs => (Char.toLower c == Char.toLower p) && ciPrefix ps cs

/-- `sql.replace(/```sql\s*/gi, '')`: global replacement of the literal
fence opener and the greedy whitespace run after it by the empty string;
`skip` counts matched characters still to pass over. -/
def stripSqlFenceAux (skip : Nat) : List Char → List Char
  | [] => []
  | c :: rest =>
    match skip with
    | k + 1 => stripSqlFenceAux k rest
    | 0 =>
      if ciPrefix FENCE_SQL (c :: rest) then
        stripSqlFenceAux
          (FENCE_SQL.length +
            (((c :: rest).drop FENCE_SQL.length).takeWhile isWs).length - 1) rest
      else c :: stripSqlFenceAux 0 rest

def stripSqlFence (s : List Char) : List Char := stripSqlFenceAux 0 s

/-- `.replace(/```\s*$/gi, '')`: a fence followed by whitespace up to the
end of the string is removed together with that whitespace. -/
def stripTrailingFence : List Char → List Char
  | [] => []
  | c :: rest =>
    if FENCE.isPrefixOf (c :: rest) && (rest.drop 2).all isWs then []
    else c :: stripTrailingFence rest

/-- The fence-stripping and trimming prefix of `postProcessSQL`. -/
def stripFences (sql : List Char) : List Char :=
  trimL (stripTrailingFence (stripSqlFence sql))

/-- The option bag of `generateSQL`; only `limitResults` reaches
`postProcessSQL` (the other option fields only shape the prompt). -/
structure SQLGenOptionsLite where
  limitResults : Option Nat
deriving DecidableEq, Repr

/-- The LIMIT-injection step of `postProcessSQL`: when `limitResults` is
truthy and the lowercased SQL does not contain the substring "limit",
`\nLIMIT n` is appended. -/
def injectLimit (opts : SQLGenOptionsLite) (s : List Char) : List Char :=
  match opts.limitResults with
  | some n =>
    if n ≠ 0 ∧ containsSub "limit".data (lowerL s) = false then
      s ++ ('\n' :: "LIMIT ".data ++ (Nat.repr n).data)
    else s
  | none => s

/-- The keyword list of `OpenAIService.formatSQL`. -/
def FORMAT_KEYWORDS : List (List Char) :=
  ["SELECT".data, "FROM".data, "WHERE".data, "GROUP BY".data, "ORDER BY".data,
   "HAVING".data, "JOIN".data, "LEFT JOIN".data, "RIGHT JOIN".data,
   "INNER JOIN".data, "OUTER JOIN".data, "UNION".data, "UNION ALL".data,
   "WITH".data, "AS".data, "ON".data, "AND".data, "OR".data, "IN".data,
   "BETWEEN".data, "LIKE".data, "IS NULL".data, "IS NOT NULL".data,
   "LIMIT".data, "OFFSET".data]

/-- JavaScript word characters for the `\b` boundary. -/
def isWordChar (c : Char) : Bool := c.isAlphanum || c = '_'

def boundaryL : Option Char → Bool
  | none => true
  | some c => !isWordChar c

def boundaryR : List Char → Bool
  | [] => true
  | d :: _ => !isWordChar d

/-- One global pass of
`formatted.replace(new RegExp('\\b' + kw + '\\b', 'gi'), '\n' + kw)`: the
scan runs over the original string, `prev` holds the previous original
character for the left boundary and `skip` the matched characters still to
pass over.  Every keyword starts and ends with word characters, so `\b`
amounts to the neighbouring character not being a word character. -/
def replaceKwAux (kw : List Char) (prev : Option Char) (skip : Nat) :
    List Char → List Char
  | [] => []
  | c :: rest =>
    match skip with
    | k + 1 => replaceKwAux kw (some c) k rest
    | 0 =>
      if ciPrefix kw (c :: rest) && boundaryL prev &&
          boundaryR ((c :: rest).drop kw.length) then
        ('\n' :: kw) ++ replaceKwAux kw (some c) (kw.length - 1) rest
      else c :: replaceKwAux kw (some c) 0 rest

/-- Greedy-match helper for `/\n\s*\n/`: position of the last newline in
the whitespace run after the opening newline. -/
def lastNlIdx : List Char → Option Nat
  | [] => none
  | c :: rest =>
    match lastNlIdx rest with
    | some i => some (i + 1)
    | none => if c = '\n' then some 0 else none

/-- `formatted.replace(/\n\s*\n/g, '\n')`: a newline, greedy whitespace and
a closing newline collapse to a single newline; the greedy match extends to
the last newline inside the whitespace run. -/
def collapseNlAux (skip : Nat) : List Char → List Char
  | [] => []
  | c :: rest =>
    match skip with
    | k + 1 => collapseNlAux k rest
    | 0 =>
      if c = '\n' then
        match lastNlIdx (rest.takeWhile isWs) with
        | some i => '\n' :: collapseNlAux (i + 1) rest
        | none => c :: collapseNlAux 0 rest
      else c :: collapseNlAux 0 rest

/-- `OpenAIService.formatSQL`. -/
def formatSQL (s : List Char) : List Char :=
  trimL (collapseNlAux 0
    (FORMAT_KEYWORDS.foldl (fun acc kw => replaceKwAux kw none 0 acc) s))

/-- `OpenAIService.postProcessSQL`. -/
def postProcessSQL (sql : List Char) (opts : SQLGenOptionsLite) : List Char :=
  formatSQL (injectLimit opts (stripFences sql))

/-- A standalone LIMIT keyword (a LIMIT clause) in the whitespace-separated
token stream. -/
def hasLimitToken (s : List Char) : Bool :=
  (splitWs s).any (fun w => upperL w == "LIMIT".data)

/-- C1 counterexample: `SELECT unlimited FROM t` contains no LIMIT clause,
yet `postProcessSQL` appends nothing because the substring test finds
"limit" inside "unlimited": the result does not contain "LIMIT 10". -/
def noLimitClauseSql : List Char := "SELECT unlimited FROM t".data

theorem postProcessSQL_misses_injection :
    hasLimitToken (stripFences noLimitClauseSql) = false ∧
    injectLimit ⟨some 10⟩ (stripFences noLimitClauseSql) =
      stripFences noLimitClauseSql ∧
    containsSub "LIMIT 10".data (postProcessSQL noLimitClauseSql ⟨some 10⟩) =
      false := by
  refine ⟨by decide, by decide, by decide⟩

/-- C1 (amended): for a positive `limitResults n`, when the lowercased SQL
(after fence stripping) does not contain the substring "limit",
`postProcessSQL` appends `\nLIMIT n` at the end before re-formatting; when
that substring is present, nothing is appended. -/
theorem postProcessSQL_inject (sql : List Char) (n : Nat) (h : 0 < n) :
    (containsSub "limit".data (lowerL (stripFences sql)) = false →
      injectLimit ⟨some n⟩ (stripFences sql) =
        stripFences sql ++ ('\n' :: "LIMIT ".data ++ (Nat.repr n).data) ∧
      postProcessSQL sql ⟨some n⟩ =
        formatSQL (stripFences sql ++
          ('\n' :: "LIMIT ".data ++ (Nat.repr n).data))) ∧
    (containsSub "limit".data (lowerL (stripFences sql)) = true →
      injectLimit ⟨some n⟩ (stripFences sql) = stripFences sql ∧
      postProcessSQL sql ⟨some n⟩ = formatSQL (stripFences sql)) := by
  have hn : n ≠ 0 := Nat.pos_iff_ne_zero.mp h
  constructor
  · intro hc
    have hinj : injectLimit ⟨some n⟩ (stripFences sql) =
        stripFences sql ++ ('\n' :: "LIMIT ".data ++ (Nat.repr n).data) := by
      simp [injectLimit, hc, hn]
    exact ⟨hinj, by rw [postProcessSQL, hinj]⟩
  · intro hc
    have hinj : injectLimit ⟨some n⟩ (stripFences sql) = stripFences sql := by
      simp [injectLimit, hc, hn]
    exact ⟨hinj, by rw [postProcessSQL, hinj]⟩

/-- Witness for C1 (amended) at `SELECT * FROM t` with `n = 10`. -/
theorem postProcessSQL_inject_witness :
    injectLimit ⟨some 10⟩ (stripFences "SELECT * FROM t".data) =
      stripFences "SELECT * FROM t".data ++
        ('\n' :: "LIMIT ".data ++ (Nat.repr 10).data) ∧
    injectLimit ⟨some 10⟩ (stripFences "SELECT x LIMIT 5".data) =
      stripFences "SELECT x LIMIT 5".data := by
  exact ⟨((postProcessSQL_inject "SELECT * FROM t".data 10 (by decide)).1
      (by decide)).1,
    ((postProcessSQL_inject "SELECT x LIMIT 5".data 10 (by decide)).2
      (by decide)).1⟩

/-! ### Fence-occurrence machinery for claim C7 -/

/-- Triple-backtick scan: `run` counts the backticks immediately preceding
the current position; the result states whether three consecutive
backticks occur. -/
def fenceRunAux (run : Nat) : List Char → Bool
  | [] => false
  | c :: rest =>
    if c = '\x60' then (if 2 ≤ run then true else fenceRunAux (run + 1) rest)
    else fenceRunAux 0 rest

theorem toNat_ofNatAux (n : Nat) (h : n.isValidChar) :
    (Char.ofNatAux n h).toNat = n := by
  simp [Char.ofNatAux, Char.toNat, UInt32.toNat]

/-- Only the backtick lowercases to a backtick. -/
theorem toLower_eq_backtick (c : Char) (h : Char.toLower c = '\x60') :
    c = '\x60' := by
  unfold Char.toLower at h
  dsimp only at h
  split at h
  · rename_i hcond
    exfalso
    have hv : (c.toNat + 32).isValidChar := by
      left
      omega
    rw [show Char.ofNat (c.toNat + 32) = Char.ofNatAux (c.toNat + 32) hv from by
      rw [Char.ofNat]
      rw [dif_pos hv]] at h
    have h2 := congrArg Char.toNat h
    rw [toNat_ofNatAux] at h2
    have h3 : c.toNat + 32 = 96 := h2
    omega
  · exact h

theorem fenceRunAux_of_noBt (b : List Char) (h : ∀ c ∈ b, c ≠ '\x60') :
    ∀ r, fenceRunAux r b = false := by
  induction b with
  | nil => intro r; rfl
  | cons c rest ih =>
    intro r
    have hc : c ≠ '\x60' := h c (by simp)
    rw [show fenceRunAux r (c :: rest) = fenceRunAux 0 rest from by
      simp [fenceRunAux, hc]]
    exact ih (fun d hd => h d (by simp [hd])) 0

theorem fenceRunAux_mono (z : List Char) :
    ∀ r r', r' ≤ r → fenceRunAux r z = false → fenceRunAux r' z = false := by
  induction z with
  | nil => intro r r' _ _; rfl
  | cons c rest ih =>
    intro r r' hle h
    by_cases hc : c = '\x60'
    · subst hc
      rw [show fenceRunAux r ('\x60' :: rest) =
          (if 2 ≤ r then true else fenceRunAux (r + 1) rest) from by
        simp [fenceRunAux]] at h
      by_cases h2 : 2 ≤ r
      · rw [if_pos h2] at h
        exact absurd h (by simp)
      · rw [if_neg h2] at h
        rw [show fenceRunAux r' ('\x60' :: rest) =
            (if 2 ≤ r' then true else fenceRunAux (r' + 1) rest) from by
          simp [fenceRunAux]]
        rw [if_neg (by omega)]
        exact ih (r + 1) (r' + 1) (by omega) h
    · rw [show fenceRunAux r (c :: rest) = fenceRunAux 0 rest from by
        simp [fenceRunAux, hc]] at h
      rw [show fenceRunAux r' (c :: rest) = fenceRunAux 0 rest from by
        simp [fenceRunAux, hc]]
      exact h

theorem fenceRunAux_append_right (a : List Char) :
    ∀ z r, fenceRunAux r (a ++ z) = false → fenceRunAux 0 z = false := by
  induction a with
  | nil => intro z r h; exact fenceRunAux_mono z r 0 (by omega) h
  | cons c a' ih =>
    intro z r h
    rw [List.cons_append] at h
    by_cases hc : c = '\x60'
    · subst hc
      rw [show fenceRunAux r ('\x60' :: (a' ++ z)) =
          (if 2 ≤ r then true else fenceRunAux (r + 1) (a' ++ z)) from by
        simp [fenceRunAux]] at h
      by_cases h2 : 2 ≤ r
      · rw [if_pos h2] at h
        exact absurd h (by simp)
      · rw [if_neg h2] at h
        exact ih z (r + 1) h
    · rw [show fenceRunAux r (c :: (a' ++ z)) = fenceRunAux 0 (a' ++ z) from by
        simp [fenceRunAux, hc]] at h
      exact ih z 0 h

theorem fenceRunAux_append_noBt_left (a : List Char)
    (ha : ∀ c ∈ a, c ≠ '\x60') (hne : a ≠ []) (r : Nat) (z : List Char) :
    fenceRunAux r (a ++ z) = fenceRunAux 0 z := by
  induction a generalizing r with
  | nil => exact absurd rfl hne
  | cons c a' ih =>
    have hc : c ≠ '\x60' := ha c (by simp)
    rw [List.cons_append,
      show fenceRunAux r (c :: (a' ++ z)) = fenceRunAux 0 (a' ++ z) from by
        simp [fenceRunAux, hc]]
    cases a' with
    | nil => rfl
    | cons d a'' => exact ih (fun e he => ha e (by simp [he])) (by simp) 0

theorem fenceRunAux_append_noBt_right (a z : List Char)
    (hz : ∀ c ∈ z, c ≠ '\x60') :
    ∀ r, fenceRunAux r a = false → fenceRunAux r (a ++ z) = false := by
  induction a with
  | nil => intro r _; exact fenceRunAux_of_noBt z hz r
  | cons c a' ih =>
    intro r h
    by_cases hc : c = '\x60'
    · subst hc
      rw [show fenceRunAux r ('\x60' :: a') =
          (if 2 ≤ r then true else fenceRunAux (r + 1) a') from by
        simp [fenceRunAux]] at h
      by_cases h2 : 2 ≤ r
      · rw [if_pos h2] at h
        exact absurd h (by simp)
      · rw [if_neg h2] at h
        rw [List.cons_append,
          show fenceRunAux r ('\x60' :: (a' ++ z)) =
            (if 2 ≤ r then true else fenceRunAux (r + 1) (a' ++ z)) from by
          simp [fenceRunAux], if_neg h2]
        exact ih (r + 1) h
    · rw [show fenceRunAux r (c :: a') = fenceRunAux 0 a' from by
        simp [fenceRunAux, hc]] at h
      rw [List.cons_append,
        show fenceRunAux r (c :: (a' ++ z)) = fenceRunAux 0 (a' ++ z) from by
          simp [fenceRunAux, hc]]
      exact ih 0 h

theorem fenceRunAux_append_left_false (a z : List Char) :
    ∀ r, fenceRunAux r (a ++ z) = false → fenceRunAux r a = false := by
  induction a with
  | nil => intro r _; rfl
  | cons c a' ih =>
    intro r h
    by_cases hc : c = '\x60'
    · subst hc
      rw [List.cons_append,
        show fenceRunAux r ('\x60' :: (a' ++ z)) =
          (if 2 ≤ r then true else fenceRunAux (r + 1) (a' ++ z)) from by
        simp [fenceRunAux]] at h
      by_cases h2 : 2 ≤ r
      · rw [if_pos h2] at h
        exact absurd h (by simp)
      · rw [if_neg h2] at h
        rw [show fenceRunAux r ('\x60' :: a') =
            (if 2 ≤ r then true else fenceRunAux (r + 1) a') from by
          simp [fenceRunAux], if_neg h2]
        exact ih (r + 1) h
    · rw [List.cons_append,
        show fenceRunAux r (c :: (a' ++ z)) = fenceRunAux 0 (a' ++ z) from by
          simp [fenceRunAux, hc]] at h
      rw [show fenceRunAux r (c :: a') = fenceRunAux 0 a' from by
        simp [fenceRunAux, hc]]
      exact ih 0 h

theorem fenceRunAux_of_triple (w : List Char) :
    ∀ (a : List Char) (r : Nat),
      fenceRunAux r (a ++ '\x60' :: '\x60' :: '\x60' :: w) = true := by
  intro a
  induction a with
  | nil =>
    intro r
    by_cases h2 : 2 ≤ r
    · simp [fenceRunAux, h2]
    · by_cases h1 : 2 ≤ r + 1
      · simp [fenceRunAux, h2, h1]
      · simp [fenceRunAux, h2, h1, show 2 ≤ r + 2 from by omega]
  | cons c a' ih =>
    intro r
    by_cases hc : c = '\x60'
    · subst hc
      by_cases h2 : 2 ≤ r
      · simp [fenceRunAux, h2]
      · rw [List.cons_append,
          show fenceRunAux r ('\x60' :: (a' ++ '\x60' :: '\x60' :: '\x60' :: w)) =
            (if 2 ≤ r then true
             else fenceRunAux (r + 1) (a' ++ '\x60' :: '\x60' :: '\x60' :: w)) from by
          simp [fenceRunAux], if_neg h2]
        exact ih (r + 1)
    · rw [List.cons_append,
        show fenceRunAux r (c :: (a' ++ '\x60' :: '\x60' :: '\x60' :: w)) =
          fenceRunAux 0 (a' ++ '\x60' :: '\x60' :: '\x60' :: w) from by
        simp [fenceRunAux, hc]]
      exact ih 0

/-- Preservation of fence-freedom under `trimL`. -/
theorem fenceRunAux_trimL (s : List Char) (h : fenceRunAux 0 s = false) :
    fenceRunAux 0 (trimL s) = false := by
  have h1 : fenceRunAux 0 (s.dropWhile isWs) = false := by
    have := List.takeWhile_append_dropWhile isWs s
    exact fenceRunAux_append_right (s.takeWhile isWs) (s.dropWhile isWs) 0
      (by rw [this]; exact h)
  have hsplit : (s.dropWhile isWs).rdropWhile isWs ++
      (s.dropWhile isWs).rtakeWhile isWs = s.dropWhile isWs := by
    rw [List.rdropWhile, List.rtakeWhile, ← List.reverse_append,
      List.takeWhile_append_dropWhile, List.reverse_reverse]
  rw [trimL]
  exact fenceRunAux_append_left_false _ ((s.dropWhile isWs).rtakeWhile isWs) 0
    (by rw [hsplit]; exact h1)

/-- The run scan agrees with substring occurrence of the fence marker. -/
theorem fenceRunAux_iff_containsSub (s : List Char) :
    ∀ run, run ≤ 2 →
      (fenceRunAux run s = true ↔
        containsSub FENCE (List.replicate run '\x60' ++ s) = true) := by
  induction s with
  | nil =>
    intro run hrun
    have : run = 0 ∨ run = 1 ∨ run = 2 := by omega
    rcases this with rfl | rfl | rfl <;> simp [fenceRunAux] <;> decide
  | cons c rest ih =>
    intro run hrun
    by_cases hc : c = '\x60'
    · subst hc
      by_cases h2 : 2 ≤ run
      · have hrun2 : run = 2 := by omega
        subst hrun2
        rw [show fenceRunAux 2 ('\x60' :: rest) = true from by simp [fenceRunAux]]
        simp only [true_iff]
        rw [show (List.replicate 2 '\x60' ++ '\x60' :: rest) =
            '\x60' :: '\x60' :: '\x60' :: rest from by simp [List.replicate]]
        simp [containsSub, FENCE, List.isPrefixOf]
      · rw [show fenceRunAux run ('\x60' :: rest) =
            fenceRunAux (run + 1) rest from by simp [fenceRunAux, h2]]
        rw [show List.replicate run '\x60' ++ '\x60' :: rest =
            List.replicate (run + 1) '\x60' ++ rest from by
          rw [List.replicate_succ']
          simp]
        exact ih (run + 1) (by omega)
    · rw [show fenceRunAux run (c :: rest) = fenceRunAux 0 rest from by
        simp [fenceRunAux, hc]]
      have hbase : containsSub FENCE (c :: rest) = containsSub FENCE rest := by
        rw [show containsSub FENCE (c :: rest) =
            (FENCE.isPrefixOf (c :: rest) || containsSub FENCE rest) from rfl]
        rw [show FENCE.isPrefixOf (c :: rest) = false from by
          simp [FENCE, List.isPrefixOf, Ne.symm hc]]
        simp
      have : run = 0 ∨ run = 1 ∨ run = 2 := by omega
      rcases this with rfl | rfl | rfl
      · rw [show (List.replicate 0 '\x60' ++ c :: rest) = c :: rest from by simp]
        rw [hbase]
        exact ih 0 (by omega)
      · rw [show (List.replicate 1 '\x60' ++ c :: rest) =
            '\x60' :: c :: rest from by simp [List.replicate]]
        rw [show containsSub FENCE ('\x60' :: c :: rest) =
            (FENCE.isPrefixOf ('\x60' :: c :: rest) ||
              containsSub FENCE (c :: rest)) from rfl]
        rw [show FENCE.isPrefixOf ('\x60' :: c :: rest) = false from by
          simp [FENCE, List.isPrefixOf, Ne.symm hc]]
        rw [Bool.false_or, hbase]
        exact ih 0 (by omega)
      · rw [show (List.replicate 2 '\x60' ++ c :: rest) =
            '\x60' :: '\x60' :: c :: rest from by simp [List.replicate]]
        rw [show containsSub FENCE ('\x60' :: '\x60' :: c :: rest) =
            (FENCE.isPrefixOf ('\x60' :: '\x60' :: c :: rest) ||
              containsSub FENCE ('\x60' :: c :: rest)) from rfl]
        rw [show FENCE.isPrefixOf ('\x60' :: '\x60' :: c :: rest) = false from by
          simp [FENCE, List.isPrefixOf, Ne.symm hc]]
        rw [show containsSub FENCE ('\x60' :: c :: rest) =
            (FENCE.isPrefixOf ('\x60' :: c :: rest) ||
              containsSub FENCE (c :: rest)) from rfl]
        rw [show FENCE.isPrefixOf ('\x60' :: c :: rest) = false from by
          simp [FENCE, List.isPrefixOf, Ne.symm hc]]
        simp only [Bool.false_or]
        rw [hbase]
        exact ih 0 (by omega)

/-- Fence occurrence as scanned equals fence occurrence as a substring. -/
theorem containsSub_fence_eq_fenceRun (s : List Char) :
    containsSub FENCE s = fenceRunAux 0 s := by
  have h := fenceRunAux_iff_containsSub s 0 (by omega)
  rw [show (List.replicate 0 '\x60' ++ s) = s from by simp] at h
  cases hc : containsSub FENCE s <;> cases hf : fenceRunAux 0 s <;>
    simp_all

theorem suffix_append_cases {t a b : List Char} (h : t <:+ a ++ b) :
    (∃ a', a' <:+ a ∧ a' ≠ [] ∧ t = a' ++ b) ∨ t <:+ b := by
  induction a with
  | nil => exact Or.inr (by simpa using h)
  | cons c a' ih =>
    rw [List.cons_append, List.suffix_cons_iff] at h
    rcases h with rfl | h
    · exact Or.inl ⟨c :: a', List.suffix_refl _, by simp, by simp⟩
    · rcases ih h with ⟨a'', hsuf, hne, rfl⟩ | h2
      · exact Or.inl ⟨a'', hsuf.trans (List.suffix_cons _ _), hne, rfl⟩
      · exact Or.inr h2

theorem ciPrefix_length_le (p : List Char) :
    ∀ t, ciPrefix p t = true → p.length ≤ t.length := by
  induction p with
  | nil => intro t _; simp
  | cons x p' ih =>
    intro t h
    cases t with
    | nil => exact absurd h (by simp [ciPrefix])
    | cons c t' =>
      rw [show ciPrefix (x :: p') (c :: t') =
          ((Char.toLower c == Char.toLower x) && ciPrefix p' t') from rfl,
        Bool.and_eq_true] at h
      simpa using Nat.succ_le_succ (ih t' h.2)

theorem stripSqlFenceAux_skip (t : List Char) :
    ∀ n, stripSqlFenceAux n t = stripSqlFenceAux 0 (t.drop n) := by
  induction t with
  | nil => intro n; cases n <;> rfl
  | cons c rest ih =>
    intro n
    cases n with
    | zero => rfl
    | succ k =>
      rw [show stripSqlFenceAux (k + 1) (c :: rest) = stripSqlFenceAux k rest from rfl,
        ih k]
      rfl

theorem stripSqlFenceAux_eq_self (s : List Char)
    (h : ∀ t, t <:+ s → ciPrefix FENCE_SQL t = false) :
    stripSqlFenceAux 0 s = s := by
  induction s with
  | nil => rfl
  | cons c rest ih =>
    have hc := h (c :: rest) (List.suffix_refl _)
    rw [show stripSqlFenceAux 0 (c :: rest) = c :: stripSqlFenceAux 0 rest from by
      simp [stripSqlFenceAux, hc]]
    rw [ih (fun t ht => h t (ht.trans (List.suffix_cons _ _)))]

theorem drop_length_takeWhile (p : Char → Bool) (l : List Char) :
    l.drop (l.takeWhile p).length = l.dropWhile p := by
  induction l with
  | nil => rfl
  | cons c rest ih =>
    by_cases hc : p c = true
    · rw [List.takeWhile_cons, if_pos hc, List.dropWhile_cons, if_pos hc,
        List.length_cons, List.drop_succ_cons, ih]
    · rw [List.takeWhile_cons, if_neg (by simp [hc]), List.dropWhile_cons,
        if_neg (by simp [hc]), List.length_nil, List.drop_zero]

theorem stripSqlFenceAux_match (c : Char) (rest : List Char)
    (h : ciPrefix FENCE_SQL (c :: rest) = true) :
    stripSqlFenceAux 0 (c :: rest) =
      stripSqlFenceAux
        (FENCE_SQL.length +
          (((c :: rest).drop FENCE_SQL.length).takeWhile isWs).length - 1)
        rest := by
  rw [show stripSqlFenceAux 0 (c :: rest) =
      (if ciPrefix FENCE_SQL (c :: rest) = true then
        stripSqlFenceAux
          (FENCE_SQL.length +
            (((c :: rest).drop FENCE_SQL.length).takeWhile isWs).length - 1)
          rest
       else c :: stripSqlFenceAux 0 rest) from rfl]
  rw [if_pos h]

theorem stripSqlFence_fenced (tail : List Char) :
    stripSqlFence (FENCE_SQL ++ tail) = stripSqlFenceAux 0 (tail.dropWhile isWs) := by
  have hfs : FENCE_SQL ++ tail =
      '\x60' :: ('\x60' :: '\x60' :: 's' :: 'q' :: 'l' :: tail) := rfl
  have hcond : ciPrefix FENCE_SQL (FENCE_SQL ++ tail) = true := rfl
  have hdrop6 : (FENCE_SQL ++ tail).drop FENCE_SQL.length = tail :=
    List.drop_left FENCE_SQL tail
  rw [stripSqlFence, hfs,
    stripSqlFenceAux_match '\x60' ('\x60' :: '\x60' :: 's' :: 'q' :: 'l' :: tail)
      (by rw [← hfs]; exact hcond)]
  rw [← hfs, hdrop6, stripSqlFenceAux_skip]
  congr 1
  rw [show FENCE_SQL.length = 6 from rfl]
  rw [show 6 + (tail.takeWhile isWs).length - 1 =
      5 + (tail.takeWhile isWs).length from by omega]
  rw [← List.drop_drop]
  rw [show ('\x60' :: '\x60' :: 's' :: 'q' :: 'l' :: tail).drop 5 = tail from rfl]
  rw [drop_length_takeWhile]

theorem no_sqlfence_in_stripped (q' : List Char) (hq : fenceRunAux 0 q' = false) :
    ∀ t, t <:+ q' ++ '\n' :: FENCE → ciPrefix FENCE_SQL t = false := by
  intro t ht
  rcases suffix_append_cases ht with ⟨a', hsuf, hne, rfl⟩ | hsub
  · match a', hne, hsuf with
    | [x], _, hsuf =>
      rw [show ([x] ++ '\n' :: FENCE) = x :: '\n' :: FENCE from rfl]
      rw [show ciPrefix FENCE_SQL (x :: '\n' :: FENCE) =
          ((Char.toLower x == Char.toLower '\x60') &&
            ((Char.toLower '\n' == Char.toLower '\x60') &&
              ciPrefix ['\x60', 's', 'q', 'l'] FENCE)) from rfl]
      rw [show (Char.toLower '\n' == Char.toLower '\x60') = false from by decide]
      simp
    | [x, y], _, hsuf =>
      rw [show ([x, y] ++ '\n' :: FENCE) = x :: y :: '\n' :: FENCE from rfl]
      rw [show ciPrefix FENCE_SQL (x :: y :: '\n' :: FENCE) =
          ((Char.toLower x == Char.toLower '\x60') &&
            ((Char.toLower y == Char.toLower '\x60') &&
              ((Char.toLower '\n' == Char.toLower '\x60') &&
                ciPrefix ['s', 'q', 'l'] FENCE))) from rfl]
      rw [show (Char.toLower '\n' == Char.toLower '\x60') = false from by decide]
      simp
    | x :: y :: z :: a'', _, hsuf =>
      by_contra hciT
      have hci : ciPrefix FENCE_SQL ((x :: y :: z :: a'') ++ '\n' :: FENCE) = true := by
        cases hx : ciPrefix FENCE_SQL ((x :: y :: z :: a'') ++ '\n' :: FENCE)
        · exact absurd hx hciT
        · rfl
      rw [show ((x :: y :: z :: a'') ++ '\n' :: FENCE) =
          x :: y :: z :: (a'' ++ '\n' :: FENCE) from by simp] at hci
      rw [show ciPrefix FENCE_SQL (x :: y :: z :: (a'' ++ '\n' :: FENCE)) =
          ((Char.toLower x == Char.toLower '\x60') &&
            ((Char.toLower y == Char.toLower '\x60') &&
              ((Char.toLower z == Char.toLower '\x60') &&
                ciPrefix ['s', 'q', 'l'] (a'' ++ '\n' :: FENCE)))) from rfl] at hci
      simp only [Bool.and_eq_true, beq_iff_eq] at hci
      obtain ⟨hx, hy, hz, -⟩ := hci
      have hlb : Char.toLower '\x60' = '\x60' := by decide
      have hx' : x = '\x60' := toLower_eq_backtick x (by rw [hx, hlb])
      have hy' : y = '\x60' := toLower_eq_backtick y (by rw [hy, hlb])
      have hz' : z = '\x60' := toLower_eq_backtick z (by rw [hz, hlb])
      subst hx'
      subst hy'
      subst hz'
      obtain ⟨pre, hpre⟩ := hsuf
      rw [← hpre, fenceRunAux_of_triple a'' pre 0] at hq
      exact absurd hq (by simp)
  · cases hx : ciPrefix FENCE_SQL t
    · rfl
    · exfalso
      have hlen := ciPrefix_length_le FENCE_SQL t hx
      have hlen2 := hsub.length_le
      rw [show FENCE_SQL.length = 6 from rfl] at hlen
      rw [show ('\n' :: FENCE).length = 4 from rfl] at hlen2
      omega

theorem stripTrailingFence_append (a z : List Char)
    (h : ∀ a', a' <:+ a → a' ≠ [] →
      ∀ rest, a' ++ z = (a'.headI) :: rest →
        (FENCE.isPrefixOf (a'.headI :: rest) && (rest.drop 2).all isWs) = false) :
    stripTrailingFence (a ++ z) = a ++ stripTrailingFence z := by
  induction a with
  | nil => simp
  | cons c a' ih =>
    have hc := h (c :: a') (List.suffix_refl _) (by simp) (a' ++ z) (by simp)
    simp only [List.headI] at hc
    rw [List.cons_append]
    rw [show stripTrailingFence (c :: (a' ++ z)) =
        (if (FENCE.isPrefixOf (c :: (a' ++ z)) && ((a' ++ z).drop 2).all isWs) = true
         then []
         else c :: stripTrailingFence (a' ++ z)) from rfl]
    rw [hc]
    simp only [Bool.false_eq_true, if_false]
    rw [ih (fun a'' hsuf hne rest heq =>
      h a'' (hsuf.trans (List.suffix_cons _ _)) hne rest heq)]
    rfl

theorem stripTrailingFence_stripped (q' : List Char)
    (hq : fenceRunAux 0 q' = false) :
    stripTrailingFence (q' ++ '\n' :: FENCE) = q' ++ ['\n'] := by
  rw [stripTrailingFence_append q' ('\n' :: FENCE) ?_]
  · rw [show stripTrailingFence ('\n' :: FENCE) = ['\n'] from by decide]
  · intro a' hsuf hne rest heq
    match a', hne, hsuf, heq with
    | [x], _, hsuf, heq =>
      simp only [List.headI]
      have heq' : x :: '\n' :: FENCE = x :: rest := heq
      injection heq' with h1 h2
      have hrest : rest = '\n' :: FENCE := h2.symm
      subst hrest
      rw [show FENCE.isPrefixOf (x :: '\n' :: FENCE) =
          (('\x60' == x) && (('\x60' == '\n') && List.isPrefixOf ['\x60'] FENCE)) from rfl]
      rw [show (('\x60' : Char) == '\n') = false from by decide]
      simp
    | [x, y], _, hsuf, heq =>
      simp only [List.headI]
      have heq' : x :: y :: '\n' :: FENCE = x :: rest := heq
      injection heq' with h1 h2
      have hrest : rest = y :: '\n' :: FENCE := h2.symm
      subst hrest
      rw [show FENCE.isPrefixOf (x :: y :: '\n' :: FENCE) =
          (('\x60' == x) && (('\x60' == y) &&
            (('\x60' == '\n') && List.isPrefixOf [] FENCE))) from rfl]
      rw [show (('\x60' : Char) == '\n') = false from by decide]
      simp
    | x :: y :: z :: a3, _, hsuf, heq =>
      simp only [List.headI]
      have heq' : x :: y :: z :: (a3 ++ '\n' :: FENCE) = x :: rest := heq
      injection heq' with h1 h2
      have hrest : rest = y :: z :: (a3 ++ '\n' :: FENCE) := h2.symm
      subst hrest
      by_contra hcond
      have hcond' : (FENCE.isPrefixOf (x :: y :: z :: (a3 ++ '\n' :: FENCE)) &&
          ((y :: z :: (a3 ++ '\n' :: FENCE)).drop 2).all isWs) = true := by
        cases hcc : (FENCE.isPrefixOf (x :: y :: z :: (a3 ++ '\n' :: FENCE)) &&
            ((y :: z :: (a3 ++ '\n' :: FENCE)).drop 2).all isWs)
        · exact absurd hcc hcond
        · rfl
      rw [show FENCE.isPrefixOf (x :: y :: z :: (a3 ++ '\n' :: FENCE)) =
          (('\x60' == x) && (('\x60' == y) && (('\x60' == z) &&
            List.isPrefixOf ([] : List Char) (a3 ++ '\n' :: FENCE)))) from rfl] at hcond'
      simp only [Bool.and_eq_true, beq_iff_eq] at hcond'
      obtain ⟨⟨hx, hy, hz, -⟩, -⟩ := hcond'
      subst hx
      subst hy
      subst hz
      obtain ⟨pre, hpre⟩ := hsuf
      rw [← hpre, fenceRunAux_of_triple a3 pre 0] at hq
      exact absurd hq (by simp)

theorem digitChar_ne_backtick (d : Nat) : Nat.digitChar d ≠ '\x60' := by
  intro h
  unfold Nat.digitChar at h
  by_cases h0 : d = 0
  · rw [if_pos h0] at h
    exact absurd h (by decide)
  · rw [if_neg h0] at h
    by_cases h1 : d = 1
    · rw [if_pos h1] at h
      exact absurd h (by decide)
    · rw [if_neg h1] at h
      by_cases h2 : d = 2
      · rw [if_pos h2] at h
        exact absurd h (by decide)
      · rw [if_neg h2] at h
        by_cases h3 : d = 3
        · rw [if_pos h3] at h
          exact absurd h (by decide)
        · rw [if_neg h3] at h
          by_cases h4 : d = 4
          · rw [if_pos h4] at h
            exact absurd h (by decide)
          · rw [if_neg h4] at h
            by_cases h5 : d = 5
            · rw [if_pos h5] at h
              exact absurd h (by decide)
            · rw [if_neg h5] at h
              by_cases h6 : d = 6
              · rw [if_pos h6] at h
                exact absurd h (by decide)
              · rw [if_neg h6] at h
                by_cases h7 : d = 7
                · rw [if_pos h7] at h
                  exact absurd h (by decide)
                · rw [if_neg h7] at h
                  by_cases h8 : d = 8
                  · rw [if_pos h8] at h
                    exact absurd h (by decide)
                  · rw [if_neg h8] at h
                    by_cases h9 : d = 9
                    · rw [if_pos h9] at h
                      exact absurd h (by decide)
                    · rw [if_neg h9] at h
                      by_cases h10 : d = 10
                      · rw [if_pos h10] at h
                        exact absurd h (by decide)
                      · rw [if_neg h10] at h
                        by_cases h11 : d = 11
                        · rw [if_pos h11] at h
                          exact absurd h (by decide)
                        · rw [if_neg h11] at h
                          by_cases h12 : d = 12
                          · rw [if_pos h12] at h
                            exact absurd h (by decide)
                          · rw [if_neg h12] at h
                            by_cases h13 : d = 13
                            · rw [if_pos h13] at h
                              exact absurd h (by decide)
                            · rw [if_neg h13] at h
                              by_cases h14 : d = 14
                              · rw [if_pos h14] at h
                                exact absurd h (by decide)
                              · rw [if_neg h14] at h
                                by_cases h15 : d = 15
                                · rw [if_pos h15] at h
                                  exact absurd h (by decide)
                                · rw [if_neg h15] at h
                                  exact absurd h (by decide)

theorem toDigitsCore_mem (b : Nat) :
    ∀ (fuel n : Nat) (ds : List Char) (c : Char),
      c ∈ Nat.toDigitsCore b fuel n ds → c ∈ ds ∨ ∃ d, c = Nat.digitChar d := by
  intro fuel
  induction fuel with
  | zero =>
    intro n ds c hc
    rw [show Nat.toDigitsCore b 0 n ds = ds from rfl] at hc
    exact Or.inl hc
  | succ k ih =>
    intro n ds c hc
    rw [show Nat.toDigitsCore b (k + 1) n ds =
        (if n / b = 0 then (n % b).digitChar :: ds
         else Nat.toDigitsCore b k (n / b) ((n % b).digitChar :: ds)) from rfl] at hc
    split at hc
    · rcases List.mem_cons.mp hc with rfl | h
      · exact Or.inr ⟨n % b, rfl⟩
      · exact Or.inl h
    · rcases ih (n / b) ((n % b).digitChar :: ds) c hc with h | h
      · rcases List.mem_cons.mp h with rfl | h2
        · exact Or.inr ⟨n % b, rfl⟩
        · exact Or.inl h2
      · exact Or.inr h

theorem repr_noBt (n : Nat) : ∀ c ∈ (Nat.repr n).data, c ≠ '\x60' := by
  intro c hc
  rw [show (Nat.repr n).data = Nat.toDigitsCore 10 (n + 1) n [] from rfl] at hc
  rcases toDigitsCore_mem 10 (n + 1) n [] c hc with h | ⟨d, rfl⟩
  · simp at h
  · exact digitChar_ne_backtick d

/-- Fence-freedom is preserved by one keyword-replacement pass: the pass
copies original characters and inserts the backtick-free `'\n' ++ kw`. -/
theorem replaceKwAux_noFence (kw : List Char) (hkw : ∀ c ∈ kw, c ≠ '\x60')
    (hne : kw ≠ []) :
    ∀ (s : List Char) (prev : Option Char) (skip r : Nat),
      fenceRunAux r (s.drop skip) = false →
      fenceRunAux r (replaceKwAux kw prev skip s) = false := by
  intro s
  induction s with
  | nil => intro prev skip r _; rfl
  | cons c rest ih =>
    intro prev skip r h
    cases skip with
    | succ k =>
      rw [show replaceKwAux kw prev (k + 1) (c :: rest) =
          replaceKwAux kw (some c) k rest from rfl]
      exact ih (some c) k r h
    | zero =>
      rw [List.drop_zero] at h
      by_cases hm : (ciPrefix kw (c :: rest) && boundaryL prev &&
          boundaryR ((c :: rest).drop kw.length)) = true
      · rw [show replaceKwAux kw prev 0 (c :: rest) =
            ('\n' :: kw) ++ replaceKwAux kw (some c) (kw.length - 1) rest from by
          rw [show replaceKwAux kw prev 0 (c :: rest) =
              (if (ciPrefix kw (c :: rest) && boundaryL prev &&
                  boundaryR ((c :: rest).drop kw.length)) = true then
                ('\n' :: kw) ++ replaceKwAux kw (some c) (kw.length - 1) rest
               else c :: replaceKwAux kw (some c) 0 rest) from rfl, if_pos hm]]
        rw [fenceRunAux_append_noBt_left ('\n' :: kw)
          (by
            intro x hx
            rcases List.mem_cons.mp hx with rfl | hx2
            · decide
            · exact hkw x hx2)
          (by simp) r _]
        apply ih (some c) (kw.length - 1) 0
        have hsplit : fenceRunAux 0 ((c :: rest).drop kw.length) = false :=
          fenceRunAux_append_right ((c :: rest).take kw.length)
            ((c :: rest).drop kw.length) r
            (by rw [List.take_append_drop]; exact h)
        have hlen : kw.length - 1 + 1 = kw.length :=
          Nat.succ_pred_eq_of_pos (List.length_pos.mpr hne)
        rw [show rest.drop (kw.length - 1) = (c :: rest).drop kw.length from by
          rw [← hlen]
          rfl]
        exact hsplit
      · rw [show replaceKwAux kw prev 0 (c :: rest) =
            c :: replaceKwAux kw (some c) 0 rest from by
          rw [show replaceKwAux kw prev 0 (c :: rest) =
              (if (ciPrefix kw (c :: rest) && boundaryL prev &&
                  boundaryR ((c :: rest).drop kw.length)) = true then
                ('\n' :: kw) ++ replaceKwAux kw (some c) (kw.length - 1) rest
               else c :: replaceKwAux kw (some c) 0 rest) from rfl,
            if_neg hm]]
        by_cases hc : c = '\x60'
        · subst hc
          rw [show fenceRunAux r ('\x60' :: rest) =
              (if 2 ≤ r then true else fenceRunAux (r + 1) rest) from by
            simp [fenceRunAux]] at h
          by_cases h2 : 2 ≤ r
          · rw [if_pos h2] at h
            exact absurd h (by simp)
          · rw [if_neg h2] at h
            rw [show fenceRunAux r ('\x60' :: replaceKwAux kw (some '\x60') 0 rest) =
                (if 2 ≤ r then true
                 else fenceRunAux (r + 1) (replaceKwAux kw (some '\x60') 0 rest)) from by
              simp [fenceRunAux], if_neg h2]
            exact ih (some '\x60') 0 (r + 1) h
        · rw [show fenceRunAux r (c :: rest) = fenceRunAux 0 rest from by
            simp [fenceRunAux, hc]] at h
          rw [show fenceRunAux r (c :: replaceKwAux kw (some c) 0 rest) =
              fenceRunAux 0 (replaceKwAux kw (some c) 0 rest) from by
            simp [fenceRunAux, hc]]
          exact ih (some c) 0 0 h

/-- Fence-freedom is preserved by the newline-collapsing pass. -/
theorem collapseNlAux_noFence :
    ∀ (s : List Char) (skip r : Nat),
      fenceRunAux r (s.drop skip) = false →
      fenceRunAux r (collapseNlAux skip s) = false := by
  intro s
  induction s with
  | nil => intro skip r _; rfl
  | cons c rest ih =>
    intro skip r h
    cases skip with
    | succ k =>
      rw [show collapseNlAux (k + 1) (c :: rest) = collapseNlAux k rest from rfl]
      exact ih k r h
    | zero =>
      rw [List.drop_zero] at h
      by_cases hc : c = '\n'
      · subst hc
        have hnl : fenceRunAux 0 rest = false := by
          rw [show fenceRunAux r ('\n' :: rest) = fenceRunAux 0 rest from by
            simp [fenceRunAux]] at h
          exact h
        cases hl : lastNlIdx (rest.takeWhile isWs) with
        | none =>
          rw [show collapseNlAux 0 ('\n' :: rest) =
              '\n' :: collapseNlAux 0 rest from by simp [collapseNlAux, hl]]
          rw [show fenceRunAux r ('\n' :: collapseNlAux 0 rest) =
              fenceRunAux 0 (collapseNlAux 0 rest) from by simp [fenceRunAux]]
          exact ih 0 0 hnl
        | some i =>
          rw [show collapseNlAux 0 ('\n' :: rest) =
              '\n' :: collapseNlAux (i + 1) rest from by simp [collapseNlAux, hl]]
          rw [show fenceRunAux r ('\n' :: collapseNlAux (i + 1) rest) =
              fenceRunAux 0 (collapseNlAux (i + 1) rest) from by simp [fenceRunAux]]
          apply ih (i + 1) 0
          exact fenceRunAux_append_right (rest.take (i + 1)) (rest.drop (i + 1)) 0
            (by rw [List.take_append_drop]; exact hnl)
      · rw [show collapseNlAux 0 (c :: rest) = c :: collapseNlAux 0 rest from by
          simp [collapseNlAux, hc]]
        by_cases hbt : c = '\x60'
        · subst hbt
          rw [show fenceRunAux r ('\x60' :: rest) =
              (if 2 ≤ r then true else fenceRunAux (r + 1) rest) from by
            simp [fenceRunAux]] at h
          by_cases h2 : 2 ≤ r
          · rw [if_pos h2] at h
            exact absurd h (by simp)
          · rw [if_neg h2] at h
            rw [show fenceRunAux r ('\x60' :: collapseNlAux 0 rest) =
                (if 2 ≤ r then true
                 else fenceRunAux (r + 1) (collapseNlAux 0 rest)) from by
              simp [fenceRunAux], if_neg h2]
            exact ih 0 (r + 1) h
        · rw [show fenceRunAux r (c :: rest) = fenceRunAux 0 rest from by
            simp [fenceRunAux, hbt]] at h
          rw [show fenceRunAux r (c :: collapseNlAux 0 rest) =
              fenceRunAux 0 (collapseNlAux 0 rest) from by
            simp [fenceRunAux, hbt]]
          exact ih 0 0 h

theorem foldl_replace_noFence (kws : List (List Char))
    (hkws : ∀ kw ∈ kws, kw ≠ [] ∧ ∀ c ∈ kw, c ≠ '\x60') :
    ∀ s, fenceRunAux 0 s = false →
      fenceRunAux 0 (kws.foldl (fun acc kw => replaceKwAux kw none 0 acc) s) = false := by
  induction kws with
  | nil => intro s h; exact h
  | cons kw kws' ih =>
    intro s h
    rw [List.foldl_cons]
    exact ih (fun k hk => hkws k (by simp [hk])) _
      (replaceKwAux_noFence kw (hkws kw (by simp)).2 (hkws kw (by simp)).1
        s none 0 0 (by rw [List.drop_zero]; exact h))

theorem formatSQL_noFence (s : List Char) (h : fenceRunAux 0 s = false) :
    fenceRunAux 0 (formatSQL s) = false := by
  rw [formatSQL]
  apply fenceRunAux_trimL
  apply collapseNlAux_noFence _ 0 0
  rw [List.drop_zero]
  exact foldl_replace_noFence FORMAT_KEYWORDS (by decide) s h

theorem injectLimit_noFence (opts : SQLGenOptionsLite) (s : List Char)
    (h : fenceRunAux 0 s = false) :
    fenceRunAux 0 (injectLimit opts s) = false := by
  obtain ⟨lr⟩ := opts
  cases lr with
  | none => exact h
  | some n =>
    rw [show injectLimit ⟨some n⟩ s =
        (if n ≠ 0 ∧ containsSub "limit".data (lowerL s) = false then
          s ++ ('\n' :: "LIMIT ".data ++ (Nat.repr n).data)
         else s) from rfl]
    split
    · apply fenceRunAux_append_noBt_right s _ ?_ 0 h
      intro x hx
      have h1 : ∀ y ∈ ('\n' :: "LIMIT ".data), y ≠ '\x60' := by decide
      rw [show ('\n' :: "LIMIT ".data ++ (Nat.repr n).data) =
          ('\n' :: "LIMIT ".data) ++ (Nat.repr n).data from by simp] at hx
      rcases List.mem_append.mp hx with hx1 | hx1
      · exact h1 x hx1
      · exact repr_noBt n x hx1
    · exact h

/-- C7 (amended): for every fenced model reply whose inner query contains
no fence marker, `postProcessSQL` strips the fences: the result contains no
occurrence of the marker. -/
theorem postProcessSQL_strips_fences (q : List Char) (opts : SQLGenOptionsLite)
    (h : containsSub FENCE q = false) :
    containsSub FENCE
      (postProcessSQL (FENCE_SQL ++ '\n' :: (q ++ '\n' :: FENCE)) opts) = false := by
  rw [containsSub_fence_eq_fenceRun] at h ⊢
  have hstrip : fenceRunAux 0
      (stripFences (FENCE_SQL ++ '\n' :: (q ++ '\n' :: FENCE))) = false := by
    rw [stripFences, stripSqlFence_fenced ('\n' :: (q ++ '\n' :: FENCE))]
    rw [show ('\n' :: (q ++ '\n' :: FENCE)).dropWhile isWs =
        (q ++ '\n' :: FENCE).dropWhile isWs from by
      rw [List.dropWhile_cons]
      simp [isWs]]
    rw [List.dropWhile_append]
    by_cases hqe : (q.dropWhile isWs).isEmpty = true
    · rw [if_pos hqe]
      rw [show ('\n' :: FENCE).dropWhile isWs = FENCE from by decide]
      rw [show stripSqlFenceAux 0 FENCE = FENCE from by decide]
      rw [show stripTrailingFence FENCE = [] from by decide]
      decide
    · rw [if_neg hqe]
      have hq' : fenceRunAux 0 (q.dropWhile isWs) = false := by
        apply fenceRunAux_append_right (q.takeWhile isWs) (q.dropWhile isWs) 0
        rw [List.takeWhile_append_dropWhile]
        exact h
      rw [stripSqlFenceAux_eq_self _ (no_sqlfence_in_stripped (q.dropWhile isWs) hq')]
      rw [stripTrailingFence_stripped (q.dropWhile isWs) hq']
      apply fenceRunAux_trimL
      exact fenceRunAux_append_noBt_right (q.dropWhile isWs) ['\n'] (by decide) 0 hq'
  rw [postProcessSQL]
  apply formatSQL_noFence
  exact injectLimit_noFence opts _ hstrip

/-- C7 counterexample: the fenced reply whose inner query is itself a fence
marker is of the claimed form, yet the post-processed result still contains
the marker. -/
theorem postProcessSQL_keeps_inner_fence :
    FENCE_SQL ++ '\n' :: ("\x60\x60\x60".data ++ '\n' :: FENCE) =
      "\x60\x60\x60sql\n\x60\x60\x60\n\x60\x60\x60".data ∧
    containsSub FENCE
      (postProcessSQL "\x60\x60\x60sql\n\x60\x60\x60\n\x60\x60\x60".data
        ⟨none⟩) = true := by
  refine ⟨by decide, by decide⟩

/-- Witness for C7 (amended) at a concrete fenced reply. -/
theorem postProcessSQL_strips_fences_witness :
    containsSub FENCE "SELECT * FROM t".data = false ∧
    containsSub FENCE
      (postProcessSQL
        (FENCE_SQL ++ '\n' :: ("SELECT * FROM t".data ++ '\n' :: FENCE))
        ⟨some 10⟩) = false := by
  exact ⟨by decide,
    postProcessSQL_strips_fences "SELECT * FROM t".data ⟨some 10⟩ (by decide)⟩

/-! ## MockDataGenerator (claim C2)

`generateDataFromSQL` lowercases the SQL, tests six category predicates by
substring matching in a fixed order and returns the canned dataset of the
first matching category, falling back to a 10-row basic freight dataset.
Cell values produced by `Math.random` expressions are abstracted as
`MVal.rnd` draw markers (indexed per row); deterministic cells keep their
source values, with decimal literals as rationals. -/

inductive MVal where
  | str (s : List Char)
  | int (n : Int)
  | rat (q : ℚ)
  | rnd (draw : Nat)
  | undef
deriving DecidableEq, Repr

/-- A result row: the object form, or the array form produced by
`formatForExcel`. -/
inductive MockDatum where
  | obj (fields : List (List Char × MVal))
  | arr (cells : List MVal)
deriving DecidableEq, Repr

structure MockDataOptions where
  includeHeaders : Bool
  formatForExcel : Bool
  maxRows : Option Nat
deriving DecidableEq, Repr

/-- The default (empty) option bag `{}`. -/
def defaultMockOptions : MockDataOptions := ⟨false, false, none⟩

/-- `MockDataGenerator.carriers` (name, type, region, rating). -/
def mockCarriers : List (List Char × List Char × List Char × ℚ) :=
  [("FedEx".data, "Express".data, "North America".data, (48 : ℚ) / 10),
   ("UPS".data, "Ground".data, "North America".data, (46 : ℚ) / 10),
   ("DHL".data, "International".data, "Global".data, (47 : ℚ) / 10),
   ("USPS".data, "Standard".data, "North America".data, (42 : ℚ) / 10),
   ("Amazon Logistics".data, "E-commerce".data, "North America".data,
     (45 : ℚ) / 10)]

/-- `MockDataGenerator.origins`. -/
def mockOrigins : List (List Char) :=
  ["New York, NY".data, "Los Angeles, CA".data, "Chicago, IL".data,
   "Houston, TX".data, "Phoenix, AZ".data, "Philadelphia, PA".data,
   "San Antonio, TX".data, "San Diego, CA".data, "Dallas, TX".data,
   "San Jose, CA".data]

def isCarrierAnalysisQuery (sql : List Char) : Bool :=
  containsSub "carrier".data sql &&
    (containsSub "group by".data sql || containsSub "sum(".data sql ||
      containsSub "count(".data sql)

def isTimeSeriesQuery (sql : List Char) : Bool :=
  containsSub "quarter".data sql || containsSub "year".data sql ||
    containsSub "month".data sql || containsSub "date".data sql

def isRouteAnalysisQuery (sql : List Char) : Bool :=
  containsSub "origin".data sql || containsSub "destination".data sql ||
    containsSub "route".data sql

def isPerformanceMetricsQuery (sql : List Char) : Bool :=
  containsSub "delivery_time".data sql || containsSub "performance".data sql ||
    containsSub "rating".data sql

def isCostAnalysisQuery (sql : List Char) : Bool :=
  containsSub "cost".data sql &&
    (containsSub "sum(".data sql || containsSub "avg(".data sql ||
      containsSub "total".data sql)

def isTrendAnalysisQuery (sql : List Char) : Bool :=
  containsSub "trend".data sql || containsSub "window".data sql ||
    containsSub "over(".data sql

/-- `MockDataGenerator.limitAndFormatData`. -/
def limitAndFormatData (data : List (List (List Char × MVal)))
    (o : MockDataOptions) : List MockDatum :=
  let result :=
    match o.maxRows with
    | some m => if m ≠ 0 ∧ data.length > m then data.take m else data
    | none => data
  if o.formatForExcel then
    if o.includeHeaders then
      let headers := result.headI.map Prod.fst
      MockDatum.arr (headers.map MVal.str) ::
        result.map (fun row =>
          MockDatum.arr (headers.map (fun h2 => (row.lookup h2).getD MVal.undef)))
    else result.map (fun row => MockDatum.arr (row.map Prod.snd))
  else result.map MockDatum.obj

def generateCarrierAnalysisData (o : MockDataOptions) : List MockDatum :=
  limitAndFormatData
    (mockCarriers.enum.map (fun p =>
      [("carrier".data, MVal.str p.2.1),
       ("total_cost".data, MVal.rnd (3 * p.1)),
       ("total_shipments".data, MVal.rnd (3 * p.1 + 1)),
       ("avg_cost_per_shipment".data, MVal.rnd (3 * p.1 + 2)),
       ("service_type".data, MVal.str p.2.2.1),
       ("region".data, MVal.str p.2.2.2.1),
       ("rating".data, MVal.rat p.2.2.2.2)])) o

def generateTimeSeriesData (o : MockDataOptions) : List MockDatum :=
  limitAndFormatData
    ((["Q1 2025".data, "Q2 2025".data, "Q3 2025".data, "Q4 2025".data].enum).map
      (fun p =>
        [("quarter".data, MVal.str p.2),
         ("year".data, MVal.int 2025),
         ("total_cost".data, MVal.rnd (4 * p.1)),
         ("total_shipments".data, MVal.rnd (4 * p.1 + 1)),
         ("avg_delivery_time".data, MVal.rnd (4 * p.1 + 2)),
         ("top_carrier".data, MVal.rnd (4 * p.1 + 3))])) o

def generateRouteAnalysisData (o : MockDataOptions) : List MockDatum :=
  limitAndFormatData
    (((mockOrigins.take 5).enum).map (fun p =>
      [("origin".data, MVal.str p.2),
       ("destination".data, MVal.rnd (5 * p.1)),
       ("distance_miles".data, MVal.rnd (5 * p.1 + 1)),
       ("avg_cost".data, MVal.rnd (5 * p.1 + 2)),
       ("total_shipments".data, MVal.rnd (5 * p.1 + 3)),
       ("cost_per_mile".data, MVal.rnd (5 * p.1 + 4))])) o

def generatePerformanceMetricsData (o : MockDataOptions) : List MockDatum :=
  limitAndFormatData
    (mockCarriers.enum.map (fun p =>
      [("carrier".data, MVal.str p.2.1),
       ("avg_delivery_time_days".data, MVal.rnd (4 * p.1)),
       ("on_time_delivery_rate".data, MVal.rnd (4 * p.1 + 1)),
       ("customer_rating".data, MVal.rat p.2.2.2.2),
       ("total_shipments".data, MVal.rnd (4 * p.1 + 2)),
       ("cost_per_mile".data, MVal.rnd (4 * p.1 + 3))])) o

def generateCostAnalysisData (o : MockDataOptions) : List MockDatum :=
  limitAndFormatData
    [[("cost_category".data, MVal.str "Freight Charges".data),
      ("total_cost".data, MVal.int 450000), ("percentage".data, MVal.int 65)],
     [("cost_category".data, MVal.str "Fuel Surcharges".data),
      ("total_cost".data, MVal.int 85000), ("percentage".data, MVal.int 12)],
     [("cost_category".data, MVal.str "Accessorial Charges".data),
      ("total_cost".data, MVal.int 62000), ("percentage".data, MVal.int 9)],
     [("cost_category".data, MVal.str "Insurance".data),
      ("total_cost".data, MVal.int 35000), ("percentage".data, MVal.int 5)],
     [("cost_category".data, MVal.str "Customs & Duties".data),
      ("total_cost".data, MVal.int 28000), ("percentage".data, MVal.int 4)],
     [("cost_category".data, MVal.str "Other Charges".data),
      ("total_cost".data, MVal.int 15000), ("percentage".data, MVal.int 2)]] o

def generateTrendAnalysisData (o : MockDataOptions) : List MockDatum :=
  limitAndFormatData
    ((["Jan".data, "Feb".data, "Mar".data, "Apr".data, "May".data,
       "Jun".data].enum).map (fun p =>
      [("month".data, MVal.str p.2),
       ("monthly_cost".data, MVal.rnd (2 * p.1)),
       ("running_total".data, MVal.rnd (2 * p.1 + 1)),
       ("month_number".data, MVal.int (p.1 + 1)),
       ("growth_rate".data,
         if p.1 > 0 then MVal.rnd (12 + p.1) else MVal.int 0)])) o

def generateBasicFreightData (o : MockDataOptions) : List MockDatum :=
  limitAndFormatData
    ((List.range 10).map (fun (i : Nat) =>
      [("id".data, MVal.int (i + 1)),
       ("carrier".data, MVal.rnd (10 * i)),
       ("origin".data, MVal.rnd (10 * i + 1)),
       ("destination".data, MVal.rnd (10 * i + 2)),
       ("cost".data, MVal.rnd (10 * i + 3)),
       ("weight".data, MVal.rnd (10 * i + 4)),
       ("shipment_date".data, MVal.rnd (10 * i + 5)),
       ("quarter".data, MVal.rnd (10 * i + 6)),
       ("year".data, MVal.int 2025),
       ("service_type".data, MVal.rnd (10 * i + 7)),
       ("delivery_time_days".data, MVal.rnd (10 * i + 8)),
       ("status".data, MVal.rnd (10 * i + 9))])) o

/-- `MockDataGenerator.generateDataFromSQL`. -/
def generateDataFromSQL (sql : List Char) (o : MockDataOptions) :
    List MockDatum :=
  let lowerSQL := lowerL sql
  if isCarrierAnalysisQuery lowerSQL then generateCarrierAnalysisData o
  else if isTimeSeriesQuery lowerSQL then generateTimeSeriesData o
  else if isRouteAnalysisQuery lowerSQL then generateRouteAnalysisData o
  else if isPerformanceMetricsQuery lowerSQL then generatePerformanceMetricsData o
  else if isCostAnalysisQuery lowerSQL then generateCostAnalysisData o
  else if isTrendAnalysisQuery lowerSQL then generateTrendAnalysisData o
  else generateBasicFreightData o

/-- C2: the dataset is selected by the first matching category predicate on
the lowercased SQL, in the fixed order carrier-analysis, time-series,
route-analysis, performance-metrics, cost-analysis, trend-analysis; with no
match the 10-row basic freight dataset is returned, and under default
options the result is never empty. -/
theorem generateDataFromSQL_spec (sql : List Char) :
    (isCarrierAnalysisQuery (lowerL sql) = true →
      generateDataFromSQL sql defaultMockOptions =
        generateCarrierAnalysisData defaultMockOptions) ∧
    (isCarrierAnalysisQuery (lowerL sql) = false →
      isTimeSeriesQuery (lowerL sql) = true →
      generateDataFromSQL sql defaultMockOptions =
        generateTimeSeriesData defaultMockOptions) ∧
    (isCarrierAnalysisQuery (lowerL sql) = false →
      isTimeSeriesQuery (lowerL sql) = false →
      isRouteAnalysisQuery (lowerL sql) = true →
      generateDataFromSQL sql defaultMockOptions =
        generateRouteAnalysisData defaultMockOptions) ∧
    (isCarrierAnalysisQuery (lowerL sql) = false →
      isTimeSeriesQuery (lowerL sql) = false →
      isRouteAnalysisQuery (lowerL sql) = false →
      isPerformanceMetricsQuery (lowerL sql) = true →
      generateDataFromSQL sql defaultMockOptions =
        generatePerformanceMetricsData defaultMockOptions) ∧
    (isCarrierAnalysisQuery (lowerL sql) = false →
      isTimeSeriesQuery (lowerL sql) = false →
      isRouteAnalysisQuery (lowerL sql) = false →
      isPerformanceMetricsQuery (lowerL sql) = false →
      isCostAnalysisQuery (lowerL sql) = true →
      generateDataFromSQL sql defaultMockOptions =
        generateCostAnalysisData defaultMockOptions) ∧
    (isCarrierAnalysisQuery (lowerL sql) = false →
      isTimeSeriesQuery (lowerL sql) = false →
      isRouteAnalysisQuery (lowerL sql) = false →
      isPerformanceMetricsQuery (lowerL sql) = false →
      isCostAnalysisQuery (lowerL sql) = false →
      isTrendAnalysisQuery (lowerL sql) = true →
      generateDataFromSQL sql defaultMockOptions =
        generateTrendAnalysisData defaultMockOptions) ∧
    (isCarrierAnalysisQuery (lowerL sql) = false →
      isTimeSeriesQuery (lowerL sql) = false →
      isRouteAnalysisQuery (lowerL sql) = false →
      isPerformanceMetricsQuery (lowerL sql) = false →
      isCostAnalysisQuery (lowerL sql) = false →
      isTrendAnalysisQuery (lowerL sql) = false →
      generateDataFromSQL sql defaultMockOptions =
        generateBasicFreightData defaultMockOptions ∧
      (generateBasicFreightData defaultMockOptions).length = 10) ∧
    generateDataFromSQL sql defaultMockOptions ≠ [] := by
  refine ⟨?_, ?_, ?_, ?_, ?_, ?_, ?_, ?_⟩
  · intro h1
    simp [generateDataFromSQL, h1]
  · intro h1 h2
    simp [generateDataFromSQL, h1, h2]
  · intro h1 h2 h3
    simp [generateDataFromSQL, h1, h2, h3]
  · intro h1 h2 h3 h4
    simp [generateDataFromSQL, h1, h2, h3, h4]
  · intro h1 h2 h3 h4 h5
    simp [generateDataFromSQL, h1, h2, h3, h4, h5]
  · intro h1 h2 h3 h4 h5 h6
    simp [generateDataFromSQL, h1, h2, h3, h4, h5, h6]
  · intro h1 h2 h3 h4 h5 h6
    exact ⟨by simp [generateDataFromSQL, h1, h2, h3, h4, h5, h6], by decide⟩
  · rw [generateDataFromSQL]
    repeat' split
    all_goals decide

/-- Witness for C2 at concrete inputs hitting the first and the default
branch. -/
theorem generateDataFromSQL_spec_witness :
    generateDataFromSQL
        "select carrier, sum(cost) from t group by carrier".data
        defaultMockOptions = generateCarrierAnalysisData defaultMockOptions ∧
    generateDataFromSQL "hello".data defaultMockOptions =
      generateBasicFreightData defaultMockOptions ∧
    (generateBasicFreightData defaultMockOptions).length = 10 := by
  refine ⟨(generateDataFromSQL_spec _).1 (by decide), ?_, ?_⟩
  · exact ((generateDataFromSQL_spec "hello".data).2.2.2.2.2.2.1
      (by decide) (by decide) (by decide) (by decide) (by decide) (by decide)).1
  · exact ((generateDataFromSQL_spec "hello".data).2.2.2.2.2.2.1
      (by decide) (by decide) (by decide) (by decide) (by decide) (by decide)).2

end ExcelAssistant
